import Mathlib

/-!
# Betting client: request building and typed dispatch

A shallow embedding of `betting.go`: the request records (`TimeRange`,
`MarketFilter`, `PriceProjection`, `Params`), the result records, the seven
`List*` entry points and `doBettingRequest`.

Modelling conventions.

* A Go `string` holding valid UTF-8 is a Lean `String`; a `[]byte` holding
  valid UTF-8 is a `String` as well.
* A Go pointer `*T` is an `Option T` (`none` is `nil`).
* A Go slice `[]T` is a `List T`; a nil slice and an empty slice are both `[]`
  (the encoder's `omitempty` test is `len == 0`, so they encode alike).
* Go `int` is `Int`; the decoder checks the 64-bit range explicitly.
* A Go `error` is an `Option GoError` (`none` is `nil`).
* `encoding/json` is embedded as far as these programs exercise it: the
  encoder for the request records (struct tags, `omitempty`, string escaping,
  `time.Time` marshalling) and the decoder (syntax check, then type-directed
  decoding) for the result records made of strings, integers and pointers to
  such records.  Decoding of the records that hold `float32`, `time.Time` or
  map fields is taken as a parameter of the operation that needs it.
* `doRequest` and `Session` live in another file of the package; the transport
  is a parameter that threads an explicit world state, and `Session` holds
  the one field this file reads.
* The encoder and decoder follow the current Go release: `\b` and `\f` are
  written as two-character escapes, and `Time.MarshalJSON` rejects a zone
  offset of a day or more besides a year outside `[0,9999]`.  The decoder's
  limit on nesting depth is left out.
-/

namespace betfair

/-! ## Errors -/

/-- The Go error values that can travel through this layer.  The three
`encoding/json` kinds carry no position information here. -/
inductive GoError where
  /-- `*json.MarshalerError`: a `MarshalJSON` method failed; `typ` is the Go type and `msg` the text of the wrapped error. -/
  | MarshalerError (typ msg : String)
  /-- `*json.SyntaxError`: the input is not well-formed JSON. -/
  | SyntaxError
  /-- `*json.UnmarshalTypeError`: a JSON value does not fit the Go type it is decoded into. -/
  | UnmarshalTypeError
  /-- Any other error value, identified by its text. -/
  | other (msg : String)
deriving DecidableEq, Repr

/-! ## JSON values and the encoder's output format -/

/-- JSON syntax trees.  Object members keep their order and duplicates; a
number keeps its literal text. -/
inductive Json where
  | null
  | bool (b : Bool)
  | num (lit : String)
  | str (s : String)
  | arr (xs : List Json)
  | obj (kvs : List (String × Json))
deriving Repr

/-- The digits Go uses for `\u00XX` escapes. -/
def hexDigit (n : Nat) : Char :=
  "0123456789abcdef".data.getD n '0'

/-- The encoder's treatment of one character inside a string literal, as in
`encodeState.string` with HTML escaping on (the setting `json.Marshal` uses). -/
def escapeChar (c : Char) : List Char :=
  if c = '"' then ['\\', '"']
  else if c = '\\' then ['\\', '\\']
  else if c = '\n' then ['\\', 'n']
  else if c = '\r' then ['\\', 'r']
  else if c = '\t' then ['\\', 't']
  else if c = Char.ofNat 8 then ['\\', 'b']
  else if c = Char.ofNat 12 then ['\\', 'f']
  else if c.toNat < 0x20 ∨ c = '<' ∨ c = '>' ∨ c = '&' then
    ['\\', 'u', '0', '0', hexDigit (c.toNat / 16), hexDigit (c.toNat % 16)]
  else if c = Char.ofNat 0x2028 then ['\\', 'u', '2', '0', '2', '8']
  else if c = Char.ofNat 0x2029 then ['\\', 'u', '2', '0', '2', '9']
  else [c]

/-- The characters of a string literal between its quotes. -/
def escapeChars : List Char → List Char
  | [] => []
  | c :: cs => escapeChar c ++ escapeChars cs

/-- A JSON string literal for `s`. -/
def quote (s : String) : String :=
  ⟨'"' :: (escapeChars s.data ++ ['"'])⟩

mutual
/-- Compact rendering of a JSON value, as the encoder writes it. -/
def render : Json → String
  | .null => "null"
  | .bool true => "true"
  | .bool false => "false"
  | .num l => l
  | .str s => quote s
  | .arr xs => "[" ++ renderElems xs ++ "]"
  | .obj kvs => "\x7b" ++ renderMembers kvs ++ "\x7d"
/-- Array elements separated by commas. -/
def renderElems : List Json → String
  | [] => ""
  | [x] => render x
  | x :: y :: r => render x ++ "," ++ renderElems (y :: r)
/-- Object members separated by commas. -/
def renderMembers : List (String × Json) → String
  | [] => ""
  | [(k, v)] => quote k ++ ":" ++ render v
  | (k, v) :: y :: r => quote k ++ ":" ++ render v ++ "," ++ renderMembers (y :: r)
end

mutual
/-- Every number in the value is the decimal text of an integer, which is how
the encoder writes the numbers of the request records. -/
def Json.integral : Json → Prop
  | .num lit => ∃ n : Int, lit = toString n
  | .arr xs => integralElems xs
  | .obj kvs => integralMembers kvs
  | _ => True
/-- `Json.integral` for every element. -/
def integralElems : List Json → Prop
  | [] => True
  | x :: xs => x.integral ∧ integralElems xs
/-- `Json.integral` for every member value. -/
def integralMembers : List (String × Json) → Prop
  | [] => True
  | (_, v) :: r => v.integral ∧ integralMembers r
end

/-- The keys of a JSON object, in order; empty for any other value. -/
def Json.keys : Json → List String
  | .obj kvs => kvs.map Prod.fst
  | _ => []

/-- The first member of an object with the given key. -/
def Json.get? : Json → String → Option Json
  | .obj kvs, k => (kvs.find? (fun kv => kv.1 = k)).map Prod.snd
  | _, _ => none

/-- Substring test on texts: `sub` occurs in `body`. -/
def occursIn (sub body : String) : Prop :=
  sub.data <:+: body.data

instance (sub body : String) : Decidable (occursIn sub body) :=
  inferInstanceAs (Decidable (sub.data <:+: body.data))

/-! ## `time.Time` and its JSON marshalling -/

/-- A `time.Time` by its presentation: the civil date and clock reading in the
value's location and that location's offset east of UTC in seconds. -/
structure Time where
  year : Int := 1
  month : Nat := 1
  day : Nat := 1
  hour : Nat := 0
  minute : Nat := 0
  second : Nat := 0
  nanosecond : Nat := 0
  offset : Int := 0
deriving DecidableEq, Repr

/-- Decimal digits of `n`, left-padded with zeros to `width`. -/
def padZero (width n : Nat) : String :=
  let d := Nat.repr n
  ⟨List.replicate (width - d.length) '0'⟩ ++ d

/-- Drop trailing zeros of a digit list. -/
def trimZeros (ds : List Char) : List Char :=
  (ds.reverse.dropWhile (fun c => c = '0')).reverse

/-- The fractional-second part of the `.999999999` layout element. -/
def formatNanos (ns : Nat) : String :=
  if ns = 0 then "" else "." ++ ⟨trimZeros (padZero 9 ns).data⟩

/-- The `Z07:00` layout element. -/
def formatZone (offset : Int) : String :=
  if offset = 0 then "Z"
  else
    let zone : Int := Int.tdiv offset 60
    let sign := if zone < 0 then "-" else "+"
    let z := zone.natAbs
    sign ++ padZero 2 (z / 60) ++ ":" ++ padZero 2 (z % 60)

/-- The `time.RFC3339Nano` rendering of a time whose year is non-negative. -/
def Time.formatRFC3339Nano (t : Time) : String :=
  padZero 4 t.year.toNat ++ "-" ++ padZero 2 t.month ++ "-" ++ padZero 2 t.day ++ "T" ++
    padZero 2 t.hour ++ ":" ++ padZero 2 t.minute ++ ":" ++ padZero 2 t.second ++
    formatNanos t.nanosecond ++ formatZone t.offset

/-- The error text of `Time.MarshalJSON` for a year that does not fit four digits. -/
def yearRangeMsg : String :=
  "Time.MarshalJSON: year outside of range [0,9999]"

/-- The error text of `Time.MarshalJSON` for a zone offset of a day or more. -/
def zoneRangeMsg : String :=
  "Time.MarshalJSON: timezone hour outside of range [0,23]"

/-- `Time.MarshalJSON` as `json.Marshal` sees it: a quoted RFC 3339 string, or
a `MarshalerError` when the year is outside `[0,9999]` or the zone offset is a
day or more. -/
def Time.MarshalJSON (t : Time) : Except GoError Json :=
  if t.year < 0 ∨ 9999 < t.year then
    .error (.MarshalerError "time.Time" yearRangeMsg)
  else if 24 ≤ (Int.tdiv t.offset 60).natAbs / 60 then
    .error (.MarshalerError "time.Time" zoneRangeMsg)
  else
    .ok (.str t.formatRFC3339Nano)

/-! ## Request records -/

/-- Go: `type TimeRange struct`, both fields tagged `omitempty`. -/
structure TimeRange where
  From : Time := {}
  To : Time := {}
deriving DecidableEq, Repr

/-- Go: `type MarketFilter struct`. -/
structure MarketFilter where
  TextQuery : String := ""
  ExchangeIds : List String := []
  EventIds : List String := []
  EventTypeIds : List String := []
  MarketCountries : List String := []
  MarketIds : List String := []
  CompetitionIds : List String := []
  MarketTypeCodes : List String := []
  MarketStartTime : Option TimeRange := none
deriving DecidableEq, Repr

/-- Go: `type PriceProjection struct`; only `PriceData` carries a tag. -/
structure PriceProjection where
  PriceData : List String := []
  Virtualise : Bool := false
  RolloverStakes : Bool := false
deriving DecidableEq, Repr

/-- Go: `type Params struct`. -/
structure Params where
  MarketFilter : Option MarketFilter := none
  MarketIds : List String := []
  PriceProjection : Option PriceProjection := none
  MaxResults : Int := 0
  Locale : String := ""
  MarketProjection : List String := []
  OrderProjection : String := ""
  MatchProjection : String := ""
deriving DecidableEq, Repr

/-! ## The encoder on the request records -/

/-- A string field tagged `omitempty`: left out when its length is zero. -/
def stringField (key : String) (s : String) : List (String × Json) :=
  if s = "" then [] else [(key, .str s)]

/-- A `[]string` field tagged `omitempty`: left out when its length is zero. -/
def stringsField (key : String) (xs : List String) : List (String × Json) :=
  if xs = [] then [] else [(key, .arr (xs.map Json.str))]

/-- An `int` field tagged `omitempty`: left out when it is zero. -/
def intField (key : String) (n : Int) : List (String × Json) :=
  if n = 0 then [] else [(key, .num (toString n))]

/-- A pointer field tagged `omitempty`: left out when nil, else the encoding
of what it points to. -/
def pointerField {α : Type} (key : String) (enc : α → Except GoError Json) :
    Option α → Except GoError (List (String × Json))
  | none => .ok []
  | some a => (enc a).map (fun j => [(key, j)])

/-- Encoding of a `TimeRange`.  `omitempty` never leaves out a struct-typed
field, so both members are always written. -/
def TimeRange.toJson (t : TimeRange) : Except GoError Json := do
  let f ← t.From.MarshalJSON
  let u ← t.To.MarshalJSON
  pure (.obj [("from", f), ("to", u)])

/-- Encoding of a `MarketFilter`. -/
def MarketFilter.toJson (f : MarketFilter) : Except GoError Json := do
  let mst ← pointerField "marketStartTime" TimeRange.toJson f.MarketStartTime
  pure (.obj (stringField "textQuery" f.TextQuery ++
    stringsField "exchangeIds" f.ExchangeIds ++
    stringsField "eventIds" f.EventIds ++
    stringsField "eventTypeIds" f.EventTypeIds ++
    stringsField "marketCountries" f.MarketCountries ++
    stringsField "marketIds" f.MarketIds ++
    stringsField "competitionIds" f.CompetitionIds ++
    stringsField "marketTypeCodes" f.MarketTypeCodes ++ mst))

/-- Encoding of a `PriceProjection`: the two untagged fields are written
under their Go names, whatever their value. -/
def PriceProjection.toJson (p : PriceProjection) : Except GoError Json :=
  .ok (.obj (stringsField "priceData" p.PriceData ++
    [("Virtualise", .bool p.Virtualise), ("RolloverStakes", .bool p.RolloverStakes)]))

/-- Encoding of a `Params`. -/
def Params.toJson (p : Params) : Except GoError Json := do
  let filter ← pointerField "filter" MarketFilter.toJson p.MarketFilter
  let pp ← pointerField "priceProjection" PriceProjection.toJson p.PriceProjection
  pure (.obj (filter ++
    stringsField "marketIds" p.MarketIds ++ pp ++
    intField "maxResults" p.MaxResults ++
    stringField "locale" p.Locale ++
    stringsField "marketProjection" p.MarketProjection ++
    stringField "orderProjection" p.OrderProjection ++
    stringField "matchProjection" p.MatchProjection))

/-- Model of `json.Marshal(params)` for `params *Params`. -/
def json.Marshal (p : Params) : Except GoError String :=
  (Params.toJson p).map render

/-! ## The decoder: syntax -/

/-- JSON insignificant whitespace. -/
def isSpace (c : Char) : Bool :=
  c = ' ' ∨ c = '\t' ∨ c = '\r' ∨ c = '\n'

/-- Drop leading whitespace. -/
def skipSpace : List Char → List Char
  | [] => []
  | c :: cs => if isSpace c then skipSpace cs else c :: cs

/-- Value of a hexadecimal digit, either case. -/
def hexValue (c : Char) : Option Nat :=
  if '0'.toNat ≤ c.toNat ∧ c.toNat ≤ '9'.toNat then some (c.toNat - '0'.toNat)
  else if 'a'.toNat ≤ c.toNat ∧ c.toNat ≤ 'f'.toNat then some (c.toNat - 'a'.toNat + 10)
  else if 'A'.toNat ≤ c.toNat ∧ c.toNat ≤ 'F'.toNat then some (c.toNat - 'A'.toNat + 10)
  else none

/-- The character a one-letter escape stands for. -/
def unescape (c : Char) : Option Char :=
  if c = '"' then some '"'
  else if c = '\\' then some '\\'
  else if c = '/' then some '/'
  else if c = 'b' then some (Char.ofNat 8)
  else if c = 'f' then some (Char.ofNat 12)
  else if c = 'n' then some '\n'
  else if c = 'r' then some '\r'
  else if c = 't' then some '\t'
  else none

/-- One piece of a scanned string literal: a character, or the UTF-16 code
unit written by a `\uXXXX` escape. -/
inductive StrItem where
  | chr (c : Char)
  | unit (u : Nat)
deriving DecidableEq, Repr

/-- Where the scanner stands inside a string literal: between characters,
right after a backslash, or inside a `\u` escape with `left` digits still to
read and `acc` the value of those read. -/
inductive StrState where
  | plain
  | esc
  | hex (left : Nat) (acc : Nat)
deriving DecidableEq, Repr

/-- Scan a string literal after its opening quote, one character at a time:
the pieces up to the closing quote and the input after it.  Fails on an
unterminated literal, a control character or a bad escape. -/
def scanFrom : StrState → List Char → Option (List StrItem × List Char)
  | _, [] => none
  | .plain, c :: cs =>
    if c = '"' then some ([], cs)
    else if c = '\\' then scanFrom .esc cs
    else if c.toNat < 0x20 then none
    else (scanFrom .plain cs).map (fun r => (StrItem.chr c :: r.1, r.2))
  | .esc, c :: cs =>
    if c = 'u' then scanFrom (.hex 4 0) cs
    else
      match unescape c with
      | some x => (scanFrom .plain cs).map (fun r => (StrItem.chr x :: r.1, r.2))
      | none => none
  | .hex left acc, c :: cs =>
    match hexValue c with
    | none => none
    | some h =>
      if left ≤ 1 then
        (scanFrom .plain cs).map (fun r => (StrItem.unit (acc * 16 + h) :: r.1, r.2))
      else scanFrom (.hex (left - 1) (acc * 16 + h)) cs

/-- Scan a string literal after its opening quote. -/
def scanString (cs : List Char) : Option (List StrItem × List Char) :=
  scanFrom .plain cs

/-- The character of a `\uXXXX` escape standing alone: U+FFFD for a surrogate. -/
def unitChar (u : Nat) : Char :=
  if 0xD800 ≤ u ∧ u < 0xE000 then Char.ofNat 0xFFFD else Char.ofNat u

/-- Turn scanned pieces into characters as `unquote` does: a high surrogate
followed by a low one is the character they encode, any other surrogate is
U+FFFD. -/
def decodeItems : List StrItem → List Char
  | [] => []
  | .chr c :: rest => c :: decodeItems rest
  | [.unit u] => [unitChar u]
  | .unit u :: .chr c :: rest => unitChar u :: c :: decodeItems rest
  | .unit u :: .unit v :: rest =>
    if 0xD800 ≤ u ∧ u < 0xDC00 ∧ 0xDC00 ≤ v ∧ v < 0xE000 then
      Char.ofNat (0x10000 + (u - 0xD800) * 0x400 + (v - 0xDC00)) :: decodeItems rest
    else unitChar u :: decodeItems (.unit v :: rest)

/-- A decimal digit. -/
def isDigit (c : Char) : Bool :=
  '0'.toNat ≤ c.toNat ∧ c.toNat ≤ '9'.toNat

/-- The longest run of digits at the front, and what follows it. -/
def takeDigits : List Char → List Char × List Char
  | [] => ([], [])
  | c :: cs =>
    if isDigit c then ((takeDigits cs).1.cons c, (takeDigits cs).2) else ([], c :: cs)

/-- The integer part of a number literal: `0`, or a non-zero digit followed by digits. -/
def scanIntPart : List Char → Option (List Char × List Char)
  | [] => none
  | c :: cs =>
    if c = '0' then some (['0'], cs)
    else if isDigit c then some (c :: (takeDigits cs).1, (takeDigits cs).2)
    else none

/-- The optional fraction of a number literal. -/
def scanFraction : List Char → Option (List Char × List Char)
  | [] => some ([], [])
  | c :: cs =>
    if c = '.' then
      (if (takeDigits cs).1 = [] then none else some ('.' :: (takeDigits cs).1, (takeDigits cs).2))
    else some ([], c :: cs)

/-- The optional exponent of a number literal. -/
def scanExponent : List Char → Option (List Char × List Char)
  | [] => some ([], [])
  | c :: cs =>
    if c = 'e' ∨ c = 'E' then
      match cs with
      | [] => none
      | s :: cs1 =>
        if s = '+' ∨ s = '-' then
          (if (takeDigits cs1).1 = [] then none
           else some (c :: s :: (takeDigits cs1).1, (takeDigits cs1).2))
        else
          (if (takeDigits cs).1 = [] then none
           else some (c :: (takeDigits cs).1, (takeDigits cs).2))
    else some ([], c :: cs)

/-- Scan a number literal (grammar of RFC 8259): its text and the input after it. -/
def scanNumber (cs : List Char) : Option (List Char × List Char) :=
  let signed : List Char × List Char :=
    match cs with
    | [] => ([], [])
    | c :: r => if c = '-' then (['-'], r) else ([], c :: r)
  match scanIntPart signed.2 with
  | none => none
  | some (ip, r1) =>
    match scanFraction r1 with
    | none => none
    | some (fp, r2) =>
      match scanExponent r2 with
      | none => none
      | some (ep, r3) => some (signed.1 ++ ip ++ fp ++ ep, r3)

/-- Strip a fixed word from the front of the input. -/
def stripWord : List Char → List Char → Option (List Char)
  | [], cs => some cs
  | _ :: _, [] => none
  | w :: ws, c :: cs => if w = c then stripWord ws cs else none

mutual
/-- Parse one JSON value, skipping whitespace before it.  The first argument
bounds the number of nested calls. -/
def parseValue : Nat → List Char → Option (Json × List Char)
  | 0, _ => none
  | n + 1, cs =>
    match skipSpace cs with
    | [] => none
    | c :: r =>
      if c = '\x7b' then
        match skipSpace r with
        | [] => none
        | c1 :: r1 =>
          if c1 = '\x7d' then some (.obj [], r1)
          else (parseMembers n (c1 :: r1)).map (fun m => (Json.obj m.1, m.2))
      else if c = '[' then
        match skipSpace r with
        | [] => none
        | c1 :: r1 =>
          if c1 = ']' then some (.arr [], r1)
          else (parseElems n (c1 :: r1)).map (fun m => (Json.arr m.1, m.2))
      else if c = '"' then
        (scanString r).map (fun m => (Json.str ⟨decodeItems m.1⟩, m.2))
      else if c = '-' ∨ isDigit c then
        (scanNumber (c :: r)).map (fun m => (Json.num ⟨m.1⟩, m.2))
      else if c = 't' then (stripWord "rue".data r).map (fun r1 => (Json.bool true, r1))
      else if c = 'f' then (stripWord "alse".data r).map (fun r1 => (Json.bool false, r1))
      else if c = 'n' then (stripWord "ull".data r).map (fun r1 => (Json.null, r1))
      else none
/-- Parse the elements of a non-empty array up to and including its `]`. -/
def parseElems : Nat → List Char → Option (List Json × List Char)
  | 0, _ => none
  | n + 1, cs =>
    match parseValue n cs with
    | none => none
    | some (v, r) =>
      match skipSpace r with
      | [] => none
      | c :: r1 =>
        if c = ',' then (parseElems n r1).map (fun m => (v :: m.1, m.2))
        else if c = ']' then some ([v], r1)
        else none
/-- Parse the members of a non-empty object up to and including its closing brace. -/
def parseMembers : Nat → List Char → Option (List (String × Json) × List Char)
  | 0, _ => none
  | n + 1, cs =>
    match skipSpace cs with
    | [] => none
    | q :: r =>
      if q = '"' then
        match scanString r with
        | none => none
        | some (items, r1) =>
          match skipSpace r1 with
          | [] => none
          | c :: r2 =>
            if c = ':' then
              match parseValue n r2 with
              | none => none
              | some (v, r3) =>
                match skipSpace r3 with
                | [] => none
                | c1 :: r4 =>
                  if c1 = ',' then
                    (parseMembers n r4).map (fun m => ((⟨decodeItems items⟩, v) :: m.1, m.2))
                  else if c1 = '\x7d' then some ([(⟨decodeItems items⟩, v)], r4)
                  else none
            else none
      else none
end

/-- Parse a whole text as one JSON value with optional surrounding whitespace. -/
def parse (data : String) : Option Json :=
  match parseValue (2 * data.length + 2) data.data with
  | none => none
  | some (v, r) => if skipSpace r = [] then some v else none

/-- A decoder for one Go type: the value after decoding a JSON value into it,
and the type error saved on the way, if any. -/
abbrev Decoder (α : Type) :=
  Json → α → α × Option GoError

/-- Go: `decodeState.saveError` keeps the first error. -/
def firstError : Option GoError → Option GoError → Option GoError
  | some e, _ => some e
  | none, e => e

/-- Read a run of decimal digits into a number, continuing from `acc`. -/
def parseDigits : List Char → Nat → Option Nat
  | [], acc => some acc
  | c :: cs, acc =>
    if isDigit c then parseDigits cs (acc * 10 + (c.toNat - '0'.toNat)) else none

/-- Go: `strconv.ParseInt(s, 10, 64)`, `none` for a syntax or range error. -/
def ParseInt64 (s : String) : Option Int :=
  match s.data with
  | [] => none
  | c :: cs =>
    if c = '-' then
      (if cs = [] then none
       else (parseDigits cs 0).bind (fun n => if n ≤ 2 ^ 63 then some (-(n : Int)) else none))
    else if c = '+' then
      (if cs = [] then none
       else (parseDigits cs 0).bind (fun n => if n < 2 ^ 63 then some (n : Int) else none))
    else (parseDigits (c :: cs) 0).bind (fun n => if n < 2 ^ 63 then some (n : Int) else none)

/-- Decode into a Go `string`. -/
def decodeString : Decoder String
  | .str s, _ => (s, none)
  | .null, old => (old, none)
  | _, old => (old, some .UnmarshalTypeError)

/-- Decode into a Go `int` (64 bits wide). -/
def decodeInt : Decoder Int
  | .num lit, old =>
    match ParseInt64 lit with
    | some n => (n, none)
    | none => (old, some .UnmarshalTypeError)
  | .null, old => (old, none)
  | _, old => (old, some .UnmarshalTypeError)

/-- Decode into a pointer: `null` makes it nil, any other value is decoded
into what it points to, allocated zero first when it was nil. -/
def decodePointer {α : Type} (zero : α) (dec : Decoder α) : Decoder (Option α)
  | .null, _ => (none, none)
  | j, old => (some (dec j (old.getD zero)).1, (dec j (old.getD zero)).2)

/-- Decode the members of an object one after the other with a field setter. -/
def decodeMembers {α : Type} (set : String → Decoder α) : List (String × Json) → α → α × Option GoError
  | [], v => (v, none)
  | (k, j) :: rest, v =>
    ((decodeMembers set rest (set k j v).1).1,
      firstError (set k j v).2 (decodeMembers set rest (set k j v).1).2)

/-- Decode into a struct whose fields are set by `set`. -/
def decodeStruct {α : Type} (set : String → Decoder α) : Decoder α
  | .obj kvs, v => decodeMembers set kvs v
  | .null, v => (v, none)
  | _, v => (v, some .UnmarshalTypeError)

/-- Decode array elements into the elements of an existing slice, position by
position, and into zero values past its end. -/
def decodeElems {α : Type} (zero : α) (dec : Decoder α) : List Json → List α → List α × Option GoError
  | [], _ => ([], none)
  | x :: xs, old =>
    ((dec x (old.headD zero)).1 :: (decodeElems zero dec xs old.tail).1,
      firstError (dec x (old.headD zero)).2 (decodeElems zero dec xs old.tail).2)

/-- Decode into a slice. -/
def decodeSlice {α : Type} (zero : α) (dec : Decoder α) : Decoder (List α)
  | .arr xs, old => decodeElems zero dec xs old
  | .null, _ => ([], none)
  | _, old => (old, some .UnmarshalTypeError)

/-- Case folding of one character of a key: ASCII letters to lower case, and
the two non-ASCII characters that fold to an ASCII letter. -/
def foldChar (c : Char) : Char :=
  if 'A'.toNat ≤ c.toNat ∧ c.toNat ≤ 'Z'.toNat then Char.ofNat (c.toNat + 32)
  else if c = Char.ofNat 0x212A then 'k'
  else if c = Char.ofNat 0x17F then 's'
  else c

/-- Case folding of a key. -/
def foldName (s : String) : List Char :=
  s.data.map foldChar

/-- The field a key selects: the one whose name equals the key, else the first
whose name equals it up to case folding. -/
def findField (names : List String) (key : String) : Option Nat :=
  match names.indexOf? key with
  | some i => some i
  | none => (names.map foldName).indexOf? (foldName key)

/-- Model of `json.Unmarshal(data, v)`: the syntax of the whole input is
checked first and the destination is decoded into only when it is valid. -/
def json.Unmarshal {α : Type} (dec : Decoder α) (data : String) (v : α) : α × Option GoError :=
  match parse data with
  | none => (v, some .SyntaxError)
  | some j => dec j v

/-! ## Result records -/

/-- Go: `float32`, by its bit pattern. -/
structure float32 where
  bits : Nat := 0
deriving DecidableEq, Repr

/-- Go: `type EventType struct`. -/
structure EventType where
  Id : String := ""
  Name : String := ""
deriving DecidableEq, Repr

/-- Go: `type EventTypeResult struct`. -/
structure EventTypeResult where
  EventType : Option EventType := none
  MarketCount : Int := 0
deriving DecidableEq, Repr

/-- Go: `type Competition struct`. -/
structure Competition where
  Id : String := ""
  Name : String := ""
deriving DecidableEq, Repr

/-- Go: `type CompetitionResult struct`. -/
structure CompetitionResult where
  Competition : Option Competition := none
  MarketCount : Int := 0
  CompetitionRegion : String := ""
deriving DecidableEq, Repr

/-- Go: `type CountryCodeResult struct`. -/
structure CountryCodeResult where
  CountryCode : String := ""
  MarketCount : Int := 0
deriving DecidableEq, Repr

/-- Go: `type Event struct`. -/
structure Event where
  Id : String := ""
  Name : String := ""
  CountryCode : String := ""
  Timezone : String := ""
  Venue : String := ""
  OpenDate : Time := {}
deriving DecidableEq, Repr

/-- Go: `type EventResult struct`. -/
structure EventResult where
  Event : Option Event := none
  MarketCount : Int := 0
deriving DecidableEq, Repr

/-- Go: `type PriceSize struct`. -/
structure PriceSize where
  Price : float32 := {}
  Size : float32 := {}
deriving DecidableEq, Repr

/-- Go: `type ExchangePrices struct`. -/
structure ExchangePrices where
  AvailableToBack : List PriceSize := []
  AvailableToLay : List PriceSize := []
  TradedVolume : List PriceSize := []
deriving DecidableEq, Repr

/-- Go: `type Runner struct`. -/
structure Runner where
  SelectionId : Int := 0
  Handicap : float32 := {}
  Status : String := ""
  LastPriceTraded : float32 := {}
  TotalMatched : float32 := {}
  Ex : Option ExchangePrices := none
deriving DecidableEq, Repr

/-- Go: `type MarketBook struct`. -/
structure MarketBook where
  MarketId : String := ""
  IsMarketDataDelayed : Bool := false
  Status : String := ""
  BetDelay : Int := 0
  BspReconciled : Bool := false
  Complete : Bool := false
  Inplay : Bool := false
  NumberOfWinners : Int := 0
  NumberOfRunners : Int := 0
  NumberOfActiveRunners : Int := 0
  LastMatchTime : Time := {}
  TotalMatched : float32 := {}
  TotalAvailable : float32 := {}
  CrossMatching : Bool := false
  RunnersVoidable : Bool := false
  Version : Int := 0
  Runners : List Runner := []
deriving DecidableEq, Repr

/-- Go: `type RunnerCatalog struct`; the map is an association list. -/
structure RunnerCatalog where
  SelectionId : Int := 0
  RunnerName : String := ""
  Handicap : float32 := {}
  SortPriority : Int := 0
  Metadata : List (String × String) := []
deriving DecidableEq, Repr

/-- Go: `type MarketDescription struct`. -/
structure MarketDescription where
  PersistenceEnabled : Bool := false
  BspMarket : Bool := false
  MarketTime : Time := {}
  SuspendTime : Time := {}
  SettleTime : Time := {}
  BettingType : String := ""
  TurnInPlayEnabled : Bool := false
  MarketType : String := ""
  Regulator : String := ""
  MarketBaseRate : float32 := {}
  DiscountAllowed : Bool := false
  Wallet : String := ""
  Rules : String := ""
  RulesHasDate : Bool := false
  Clarifications : String := ""
deriving DecidableEq, Repr

/-- Go: `type MarketCatalogue struct`. -/
structure MarketCatalogue where
  MarketId : String := ""
  MarketName : String := ""
  MarketStartTime : Option Time := none
  Description : Option MarketDescription := none
  Runners : List RunnerCatalog := []
  EventType : Option EventType := none
  Competition : Option Competition := none
  Event : Option Event := none
deriving DecidableEq, Repr

/-- Go: `type MarketTypeResult struct`. -/
structure MarketTypeResult where
  MarketType : String := ""
  MarketCount : Int := 0
deriving DecidableEq, Repr

/-! ## Decoders of the result records without float, time or map fields -/

/-- Set the field of an `EventType` that a key selects; other keys are ignored. -/
def EventType.setField (key : String) (j : Json) (v : EventType) : EventType × Option GoError :=
  match findField ["Id", "Name"] key with
  | some 0 => ({ v with Id := (decodeString j v.Id).1 }, (decodeString j v.Id).2)
  | some 1 => ({ v with Name := (decodeString j v.Name).1 }, (decodeString j v.Name).2)
  | _ => (v, none)

/-- Decoder of `EventType`. -/
def EventType.decode : Decoder EventType :=
  decodeStruct EventType.setField

/-- Set the field of an `EventTypeResult` that a key selects. -/
def EventTypeResult.setField (key : String) (j : Json) (v : EventTypeResult) :
    EventTypeResult × Option GoError :=
  match findField ["EventType", "MarketCount"] key with
  | some 0 =>
    ({ v with EventType := (decodePointer {} EventType.decode j v.EventType).1 },
      (decodePointer {} EventType.decode j v.EventType).2)
  | some 1 => ({ v with MarketCount := (decodeInt j v.MarketCount).1 }, (decodeInt j v.MarketCount).2)
  | _ => (v, none)

/-- Decoder of `EventTypeResult`. -/
def EventTypeResult.decode : Decoder EventTypeResult :=
  decodeStruct EventTypeResult.setField

/-- Set the field of a `Competition` that a key selects. -/
def Competition.setField (key : String) (j : Json) (v : Competition) : Competition × Option GoError :=
  match findField ["Id", "Name"] key with
  | some 0 => ({ v with Id := (decodeString j v.Id).1 }, (decodeString j v.Id).2)
  | some 1 => ({ v with Name := (decodeString j v.Name).1 }, (decodeString j v.Name).2)
  | _ => (v, none)

/-- Decoder of `Competition`. -/
def Competition.decode : Decoder Competition :=
  decodeStruct Competition.setField

/-- Set the field of a `CompetitionResult` that a key selects. -/
def CompetitionResult.setField (key : String) (j : Json) (v : CompetitionResult) :
    CompetitionResult × Option GoError :=
  match findField ["Competition", "MarketCount", "CompetitionRegion"] key with
  | some 0 =>
    ({ v with Competition := (decodePointer {} Competition.decode j v.Competition).1 },
      (decodePointer {} Competition.decode j v.Competition).2)
  | some 1 => ({ v with MarketCount := (decodeInt j v.MarketCount).1 }, (decodeInt j v.MarketCount).2)
  | some 2 =>
    ({ v with CompetitionRegion := (decodeString j v.CompetitionRegion).1 },
      (decodeString j v.CompetitionRegion).2)
  | _ => (v, none)

/-- Decoder of `CompetitionResult`. -/
def CompetitionResult.decode : Decoder CompetitionResult :=
  decodeStruct CompetitionResult.setField

/-- Set the field of a `CountryCodeResult` that a key selects. -/
def CountryCodeResult.setField (key : String) (j : Json) (v : CountryCodeResult) :
    CountryCodeResult × Option GoError :=
  match findField ["CountryCode", "MarketCount"] key with
  | some 0 => ({ v with CountryCode := (decodeString j v.CountryCode).1 }, (decodeString j v.CountryCode).2)
  | some 1 => ({ v with MarketCount := (decodeInt j v.MarketCount).1 }, (decodeInt j v.MarketCount).2)
  | _ => (v, none)

/-- Decoder of `CountryCodeResult`. -/
def CountryCodeResult.decode : Decoder CountryCodeResult :=
  decodeStruct CountryCodeResult.setField

/-- Set the field of a `MarketTypeResult` that a key selects. -/
def MarketTypeResult.setField (key : String) (j : Json) (v : MarketTypeResult) :
    MarketTypeResult × Option GoError :=
  match findField ["MarketType", "MarketCount"] key with
  | some 0 => ({ v with MarketType := (decodeString j v.MarketType).1 }, (decodeString j v.MarketType).2)
  | some 1 => ({ v with MarketCount := (decodeInt j v.MarketCount).1 }, (decodeInt j v.MarketCount).2)
  | _ => (v, none)

/-- Decoder of `MarketTypeResult`. -/
def MarketTypeResult.decode : Decoder MarketTypeResult :=
  decodeStruct MarketTypeResult.setField

/-! ## Session, transport and the dispatcher -/

/-- Modelled from the spec: the session configuration, declared in another
file of the package; "exposes a `Locale` configuration value (string) read by
the Dispatcher before every call".  The source reads it as `s.config.Locale`. -/
structure Config where
  Locale : String := ""
deriving DecidableEq, Repr

/-- Modelled from the spec: `Session`, declared in another file of the
package; of its fields this file reads `config` only. -/
structure Session where
  config : Config := {}
deriving DecidableEq, Repr

/-- Modelled from the spec: `doRequest`, defined in another file of the
package, by its signature "`invoke(session, serviceGroup, methodName,
requestBody bytes) -> (responseBody bytes, error)`"; the source calls it as
`doRequest(s, "betting", method, body)`.  It is a parameter of everything that
calls it; it may return any error value and may change the world state `σ` it
runs in. -/
abbrev Transport (σ : Type) :=
  Session → String → String → String → σ → (String × Option GoError) × σ

/-- What one run of `doBettingRequest` leaves behind: the returned error, the
`Params` record and the destination as they stand afterwards, and the world. -/
structure Outcome (α σ : Type) where
  err : Option GoError
  params : Params
  v : α
  world : σ

/-- Go: `func doBettingRequest(s *Session, method string, params *Params, v interface{}) error`.
`dec` is the decoder selected by the dynamic type of `v`. -/
def doBettingRequest {α σ : Type} (dec : Decoder α) (doRequest : Transport σ) (s : Session)
    (method : String) (params : Params) (v : α) (w : σ) : Outcome α σ :=
  let params := { params with Locale := s.config.Locale }
  match json.Marshal params with
  | .error err => ⟨some err, params, v, w⟩
  | .ok bytes =>
    match doRequest s "betting" method bytes w with
    | ((_, some err), w1) => ⟨some err, params, v, w1⟩
    | ((data, none), w1) =>
      match json.Unmarshal dec data v with
      | (v1, some err) => ⟨some err, params, v1, w1⟩
      | (v1, none) => ⟨none, params, v1, w1⟩

/-! ## The seven operations

Each returns the result list and the error, paired with the world after the
call.  `X.params` is the `Params` record the body of `X` builds before it
calls `doBettingRequest`. -/

/-- The record built by `ListCompetitions`. -/
def ListCompetitions.params (filter : Option MarketFilter) : Params :=
  let params : Params := {}
  { params with MarketFilter := filter }

/-- Go: `func (s *Session) ListCompetitions(filter *MarketFilter) ([]CompetitionResult, error)`. -/
def ListCompetitions {σ : Type} (doRequest : Transport σ) (s : Session)
    (filter : Option MarketFilter) (w : σ) : (List CompetitionResult × Option GoError) × σ :=
  let results : List CompetitionResult := []
  let r := doBettingRequest (decodeSlice {} CompetitionResult.decode) doRequest s
    "listCompetitions" (ListCompetitions.params filter) results w
  ((r.v, r.err), r.world)

/-- The record built by `ListCountries`. -/
def ListCountries.params (filter : Option MarketFilter) : Params :=
  let params : Params := {}
  { params with MarketFilter := filter }

/-- Go: `func (s *Session) ListCountries(filter *MarketFilter) ([]CountryCodeResult, error)`. -/
def ListCountries {σ : Type} (doRequest : Transport σ) (s : Session)
    (filter : Option MarketFilter) (w : σ) : (List CountryCodeResult × Option GoError) × σ :=
  let results : List CountryCodeResult := []
  let r := doBettingRequest (decodeSlice {} CountryCodeResult.decode) doRequest s
    "listCountries" (ListCountries.params filter) results w
  ((r.v, r.err), r.world)

/-- The record built by `ListEvents`. -/
def ListEvents.params (filter : Option MarketFilter) : Params :=
  let params : Params := {}
  { params with MarketFilter := filter }

/-- Go: `func (s *Session) ListEvents(filter *MarketFilter) ([]EventResult, error)`.
`dec` is the decoder of `[]EventResult`, whose elements hold a `time.Time`. -/
def ListEvents {σ : Type} (dec : Decoder (List EventResult)) (doRequest : Transport σ)
    (s : Session) (filter : Option MarketFilter) (w : σ) :
    (List EventResult × Option GoError) × σ :=
  let results : List EventResult := []
  let r := doBettingRequest dec doRequest s "listEvents" (ListEvents.params filter) results w
  ((r.v, r.err), r.world)

/-- The record built by `ListEventTypes`. -/
def ListEventTypes.params (filter : Option MarketFilter) : Params :=
  let params : Params := {}
  { params with MarketFilter := filter }

/-- Go: `func (s *Session) ListEventTypes(filter *MarketFilter) ([]EventTypeResult, error)`. -/
def ListEventTypes {σ : Type} (doRequest : Transport σ) (s : Session)
    (filter : Option MarketFilter) (w : σ) : (List EventTypeResult × Option GoError) × σ :=
  let results : List EventTypeResult := []
  let r := doBettingRequest (decodeSlice {} EventTypeResult.decode) doRequest s
    "listEventTypes" (ListEventTypes.params filter) results w
  ((r.v, r.err), r.world)

/-- The record built by `ListMarketBook`. -/
def ListMarketBook.params (marketIds : List String) : Params :=
  let params : Params := {}
  let params := { params with MarketIds := marketIds }
  let params := { params with PriceProjection := some { PriceData := ["EX_BEST_OFFERS"] } }
  { params with MatchProjection := "NO_ROLLUP" }

/-- Go: `func (s *Session) ListMarketBook(marketIds []string) ([]MarketBook, error)`.
`dec` is the decoder of `[]MarketBook`, whose elements hold `float32` and
`time.Time` fields. -/
def ListMarketBook {σ : Type} (dec : Decoder (List MarketBook)) (doRequest : Transport σ)
    (s : Session) (marketIds : List String) (w : σ) :
    (List MarketBook × Option GoError) × σ :=
  let results : List MarketBook := []
  let r := doBettingRequest dec doRequest s "listMarketBook" (ListMarketBook.params marketIds)
    results w
  ((r.v, r.err), r.world)

/-- The record built by `ListMarketCatalogue`. -/
def ListMarketCatalogue.params (filter : Option MarketFilter) (maxResults : Int) : Params :=
  let params : Params := {}
  let params := { params with MarketFilter := filter }
  let params := { params with MaxResults := maxResults }
  { params with
    MarketProjection := ["RUNNER_METADATA", "EVENT", "MARKET_START_TIME", "MARKET_DESCRIPTION"] }

/-- Go: `func (s *Session) ListMarketCatalogue(filter *MarketFilter, maxResults int) ([]MarketCatalogue, error)`.
`dec` is the decoder of `[]MarketCatalogue`, whose elements hold `float32`,
`time.Time` and map fields. -/
def ListMarketCatalogue {σ : Type} (dec : Decoder (List MarketCatalogue))
    (doRequest : Transport σ) (s : Session) (filter : Option MarketFilter) (maxResults : Int)
    (w : σ) : (List MarketCatalogue × Option GoError) × σ :=
  let results : List MarketCatalogue := []
  let r := doBettingRequest dec doRequest s "listMarketCatalogue"
    (ListMarketCatalogue.params filter maxResults) results w
  ((r.v, r.err), r.world)

/-- The record built by `ListMarketTypes`. -/
def ListMarketTypes.params (filter : Option MarketFilter) : Params :=
  let params : Params := {}
  { params with MarketFilter := filter }

/-- Go: `func (s *Session) ListMarketTypes(filter *MarketFilter) ([]MarketTypeResult, error)`. -/
def ListMarketTypes {σ : Type} (doRequest : Transport σ) (s : Session)
    (filter : Option MarketFilter) (w : σ) : (List MarketTypeResult × Option GoError) × σ :=
  let results : List MarketTypeResult := []
  let r := doBettingRequest (decodeSlice {} MarketTypeResult.decode) doRequest s
    "listMarketTypes" (ListMarketTypes.params filter) results w
  ((r.v, r.err), r.world)

/-! ## Observing the transport -/

/-- One invocation of the transport. -/
structure Call where
  serviceGroup : String
  method : String
  body : String
deriving DecidableEq, Repr

/-- A transport that appends every invocation to a log, the world state, and
answers with `reply`. -/
def recording (reply : Call → String × Option GoError) : Transport (List Call) :=
  fun _ group method body log => (reply ⟨group, method, body⟩, log ++ [⟨group, method, body⟩])

/-- The body `doBettingRequest` serializes for a record: the locale is stamped first. -/
def requestBody (s : Session) (params : Params) : Except GoError String :=
  json.Marshal { params with Locale := s.config.Locale }

/-! ## The wire form of an event-type result -/

/-- A session whose configured locale is `"en"`. -/
def english : Session :=
  { config := { Locale := "en" } }

/-- A transport without state that refuses every request. -/
def refusing : Transport Unit :=
  fun _ _ _ _ _ => (("", some (.other "connection refused")), ())

/-- A decoder that leaves the destination alone. -/
def idleDecoder (α : Type) : Decoder α :=
  fun _ v => (v, none)

/-- A reply that answers every request with an empty JSON array. -/
def emptyReply : Call → String × Option GoError :=
  fun _ => ("[]", none)

/-- A filter whose market-start-time range starts in the year 10000. -/
def farFutureFilter : MarketFilter :=
  { MarketStartTime := some { From := { year := 10000 } } }

/-- The instant 2014-03-09T13:00:00Z. -/
def kickOff : Time :=
  { year := 2014, month := 3, day := 9, hour := 13 }

/-- A filter with a text query and two event type ids. -/
def soccerFilter : MarketFilter :=
  { TextQuery := "cup", EventTypeIds := ["1", "2"] }

set_option maxRecDepth 100000


/-! ## The dispatcher, step by step -/

theorem doBettingRequest_marshal_error {α σ : Type} (dec : Decoder α) (doRequest : Transport σ)
    (s : Session) (method : String) (params : Params) (v : α) (w : σ) (err : GoError)
    (h : requestBody s params = .error err) :
    doBettingRequest dec doRequest s method params v w =
      ⟨some err, { params with Locale := s.config.Locale }, v, w⟩ := by
  unfold requestBody at h
  simp only [doBettingRequest, h]

theorem doBettingRequest_transport_error {α σ : Type} (dec : Decoder α) (doRequest : Transport σ)
    (s : Session) (method : String) (params : Params) (v : α) (w w1 : σ) (body data : String)
    (e : GoError) (h : requestBody s params = .ok body)
    (ht : doRequest s "betting" method body w = ((data, some e), w1)) :
    doBettingRequest dec doRequest s method params v w =
      ⟨some e, { params with Locale := s.config.Locale }, v, w1⟩ := by
  unfold requestBody at h
  simp only [doBettingRequest, h, ht]

theorem doBettingRequest_transport_ok {α σ : Type} (dec : Decoder α) (doRequest : Transport σ)
    (s : Session) (method : String) (params : Params) (v : α) (w w1 : σ) (body data : String)
    (h : requestBody s params = .ok body)
    (ht : doRequest s "betting" method body w = ((data, none), w1)) :
    doBettingRequest dec doRequest s method params v w =
      ⟨(json.Unmarshal dec data v).2, { params with Locale := s.config.Locale },
        (json.Unmarshal dec data v).1, w1⟩ := by
  unfold requestBody at h
  simp only [doBettingRequest, h, ht]
  rcases hu : json.Unmarshal dec data v with ⟨v1, _ | e⟩ <;> simp

theorem doBettingRequest_world {α σ : Type} (dec : Decoder α) (doRequest : Transport σ)
    (s : Session) (method : String) (params : Params) (v : α) (w : σ) (body : String)
    (h : requestBody s params = .ok body) :
    (doBettingRequest dec doRequest s method params v w).world =
      (doRequest s "betting" method body w).2 := by
  rcases ht : doRequest s "betting" method body w with ⟨⟨data, _ | e⟩, w1⟩
  · rw [doBettingRequest_transport_ok dec doRequest s method params v w w1 body data h ht]
  · rw [doBettingRequest_transport_error dec doRequest s method params v w w1 body data e h ht]

theorem doBettingRequest_recorded {α : Type} (dec : Decoder α)
    (reply : Call → String × Option GoError) (s : Session) (method : String) (params : Params)
    (v : α) (log : List Call) (body : String) (h : requestBody s params = .ok body) :
    (doBettingRequest dec (recording reply) s method params v log).world =
      log ++ [⟨"betting", method, body⟩] := by
  rw [doBettingRequest_world dec (recording reply) s method params v log body h]
  rfl


theorem doBettingRequest_params {α σ : Type} (dec : Decoder α) (doRequest : Transport σ)
    (s : Session) (method : String) (params : Params) (v : α) (w : σ) :
    (doBettingRequest dec doRequest s method params v w).params =
      { params with Locale := s.config.Locale } := by
  rcases hb : requestBody s params with err | body
  · rw [doBettingRequest_marshal_error _ _ _ _ _ _ _ _ hb]
  · rcases ht : doRequest s "betting" method body w with ⟨⟨data, _ | e⟩, w1⟩
    · rw [doBettingRequest_transport_ok _ _ _ _ _ _ _ _ _ _ hb ht]
    · rw [doBettingRequest_transport_error _ _ _ _ _ _ _ _ _ _ _ hb ht]

/-! ## String literals: scanning what the encoder wrote -/

theorem hexValue_hexDigit (k : Nat) (h : k < 16) : hexValue (hexDigit k) = some k := by
  interval_cases k <;> rfl

theorem scanString_quote (cs : List Char) : scanString ('"' :: cs) = some ([], cs) := by
  simp [scanString, scanFrom]

theorem scanString_raw (c : Char) (cs : List Char) (h1 : c ≠ '"') (h2 : c ≠ '\\')
    (h3 : ¬ c.toNat < 0x20) :
    scanString (c :: cs) = (scanString cs).map (fun r => (StrItem.chr c :: r.1, r.2)) := by
  simp [scanString, scanFrom, h1, h2, h3]

theorem scanString_escape (e x : Char) (cs : List Char) (he : e ≠ 'u') (hx : unescape e = some x) :
    scanString ('\\' :: e :: cs) = (scanString cs).map (fun r => (StrItem.chr x :: r.1, r.2)) := by
  simp [scanString, scanFrom, he, hx]

theorem scanString_unicode (a b c d : Char) (x y z w : Nat) (cs : List Char)
    (ha : hexValue a = some x) (hb : hexValue b = some y) (hc : hexValue c = some z)
    (hd : hexValue d = some w) :
    scanString ('\\' :: 'u' :: a :: b :: c :: d :: cs) =
      (scanString cs).map
        (fun r => (StrItem.unit (((x * 16 + y) * 16 + z) * 16 + w) :: r.1, r.2)) := by
  simp [scanString, scanFrom, ha, hb, hc, hd]

theorem decodeItems_chr (c : Char) (items : List StrItem) :
    decodeItems (.chr c :: items) = c :: decodeItems items := by
  simp [decodeItems]

theorem decodeItems_unit (u : Nat) (hu : u < 0xD800) (items : List StrItem) :
    decodeItems (.unit u :: items) = Char.ofNat u :: decodeItems items := by
  have h1 : ¬ (0xD800 ≤ u ∧ u < 0xE000) := by omega
  cases items with
  | nil => simp [decodeItems, unitChar, h1]
  | cons it rest =>
    cases it with
    | chr c => simp [decodeItems, unitChar, h1]
    | unit v =>
      have h3 : ¬ (0xD800 ≤ u ∧ u < 0xDC00 ∧ 0xDC00 ≤ v ∧ v < 0xE000) := by omega
      simp only [decodeItems, unitChar, h1, h3, if_false]

/-- Scanning the encoder's text for one character yields one item that decodes to it. -/
theorem scanString_escapeChar (c : Char) (tail : List Char) :
    ∃ item : StrItem,
      scanString (escapeChar c ++ tail) = (scanString tail).map (fun r => (item :: r.1, r.2)) ∧
        ∀ items, decodeItems (item :: items) = c :: decodeItems items := by
  by_cases h1 : c = '"'
  · subst h1
    exact ⟨.chr '"', scanString_escape _ _ _ (by decide) rfl, decodeItems_chr _⟩
  by_cases h2 : c = '\\'
  · subst h2
    exact ⟨.chr '\\', scanString_escape _ _ _ (by decide) rfl, decodeItems_chr _⟩
  by_cases h3 : c = '\n'
  · subst h3
    exact ⟨.chr '\n', scanString_escape _ _ _ (by decide) rfl, decodeItems_chr _⟩
  by_cases h4 : c = '\r'
  · subst h4
    exact ⟨.chr '\r', scanString_escape _ _ _ (by decide) rfl, decodeItems_chr _⟩
  by_cases h5 : c = '\t'
  · subst h5
    exact ⟨.chr '\t', scanString_escape _ _ _ (by decide) rfl, decodeItems_chr _⟩
  by_cases h6 : c = Char.ofNat 8
  · subst h6
    exact ⟨.chr (Char.ofNat 8), scanString_escape _ _ _ (by decide) rfl, decodeItems_chr _⟩
  by_cases h7 : c = Char.ofNat 12
  · subst h7
    exact ⟨.chr (Char.ofNat 12), scanString_escape _ _ _ (by decide) rfl, decodeItems_chr _⟩
  by_cases h8 : c.toNat < 0x20 ∨ c = '<' ∨ c = '>' ∨ c = '&'
  · have hlt : c.toNat < 64 := by
      rcases h8 with h | h | h | h
      · omega
      · subst h; decide
      · subst h; decide
      · subst h; decide
    have hv : ((0 * 16 + 0) * 16 + c.toNat / 16) * 16 + c.toNat % 16 = c.toNat := by omega
    refine ⟨.unit c.toNat, ?_, ?_⟩
    · have he : escapeChar c =
          ['\\', 'u', '0', '0', hexDigit (c.toNat / 16), hexDigit (c.toNat % 16)] := by
        simp [escapeChar, h1, h2, h3, h4, h5, h6, h7, h8]
      rw [he]
      have hs := scanString_unicode '0' '0' (hexDigit (c.toNat / 16)) (hexDigit (c.toNat % 16))
        0 0 (c.toNat / 16) (c.toNat % 16) tail rfl rfl (hexValue_hexDigit _ (by omega))
        (hexValue_hexDigit _ (by omega))
      rw [hv] at hs
      exact hs
    · intro items
      rw [decodeItems_unit _ (by omega), Char.ofNat_toNat]
  by_cases h9 : c = Char.ofNat 0x2028
  · subst h9
    exact ⟨.unit 0x2028, scanString_unicode '2' '0' '2' '8' 2 0 2 8 tail rfl rfl rfl rfl,
      fun items => decodeItems_unit _ (by omega) items⟩
  by_cases h10 : c = Char.ofNat 0x2029
  · subst h10
    exact ⟨.unit 0x2029, scanString_unicode '2' '0' '2' '9' 2 0 2 9 tail rfl rfl rfl rfl,
      fun items => decodeItems_unit _ (by omega) items⟩
  have he : escapeChar c = [c] := by
    simp [escapeChar, h1, h2, h3, h4, h5, h6, h7, h8, h9, h10]
  rw [he]
  exact ⟨.chr c, scanString_raw c tail h1 h2 (fun h => h8 (Or.inl h)), decodeItems_chr _⟩

/-- Scanning a literal the encoder wrote gives back the string and stops after the
closing quote. -/
theorem scanString_escapeChars (s rest : List Char) :
    ∃ items, scanString (escapeChars s ++ '"' :: rest) = some (items, rest) ∧
      decodeItems items = s := by
  induction s with
  | nil => exact ⟨[], scanString_quote rest, by simp [decodeItems]⟩
  | cons c cs ih =>
    obtain ⟨items, hs, hd⟩ := ih
    obtain ⟨item, hscan, hdec⟩ := scanString_escapeChar c (escapeChars cs ++ '"' :: rest)
    refine ⟨item :: items, ?_, ?_⟩
    · simp only [escapeChars, List.append_assoc]
      rw [hscan, hs]
      rfl
    · rw [hdec, hd]

/-! ## Number literals: scanning what the encoder wrote -/

theorem digitChar_facts (d : Nat) (h : d < 10) :
    isDigit (Nat.digitChar d) = true ∧ (Nat.digitChar d).toNat - '0'.toNat = d ∧
      (Nat.digitChar d = '0' → d = 0) := by
  interval_cases d <;> exact ⟨rfl, rfl, by decide⟩

theorem parseDigits_digit (d : Nat) (h : d < 10) (cs : List Char) (acc : Nat) :
    parseDigits (Nat.digitChar d :: cs) acc = parseDigits cs (acc * 10 + d) := by
  obtain ⟨h1, h2, _⟩ := digitChar_facts d h
  simp only [parseDigits, h1, if_true, h2]

/-- The digits `Nat.toDigitsCore` puts in front of its accumulator. -/
theorem toDigitsCore_front (fuel : Nat) :
    ∀ (n : Nat) (ds : List Char), n < fuel →
      ∃ front : List Char, Nat.toDigitsCore 10 fuel n ds = front ++ ds ∧ front ≠ [] ∧
        (∀ c ∈ front, isDigit c = true) ∧
        (front.head? = some '0' → front = ['0']) ∧
        (∀ (cs : List Char) (acc : Nat),
          parseDigits (front ++ cs) acc = parseDigits cs (acc * 10 ^ front.length + n)) := by
  induction fuel with
  | zero => intro n ds h; omega
  | succ fuel ih =>
    intro n ds hn
    obtain ⟨hd1, hd2, hd3⟩ := digitChar_facts (n % 10) (Nat.mod_lt _ (by decide))
    by_cases h0 : n / 10 = 0
    · have hn10 : n % 10 = n := by omega
      refine ⟨[Nat.digitChar (n % 10)], ?_, by simp, ?_, ?_, ?_⟩
      · simp [Nat.toDigitsCore, h0]
      · intro c hc
        simp only [List.mem_singleton] at hc
        rw [hc]; exact hd1
      · intro hh
        simp only [List.head?_cons, Option.some.injEq] at hh
        rw [hh]
      · intro cs acc
        rw [List.singleton_append, parseDigits_digit _ (Nat.mod_lt _ (by decide))]
        simp [hn10]
    · obtain ⟨front, hf, hne, hdig, hzero, hparse⟩ :=
        ih (n / 10) (Nat.digitChar (n % 10) :: ds) (by omega)
      refine ⟨front ++ [Nat.digitChar (n % 10)], ?_, by simp, ?_, ?_, ?_⟩
      · simp [Nat.toDigitsCore, h0, hf]
      · intro c hc
        rcases List.mem_append.mp hc with h | h
        · exact hdig c h
        · simp only [List.mem_singleton] at h
          rw [h]; exact hd1
      · intro hh
        exfalso
        cases front with
        | nil => exact hne rfl
        | cons a t =>
          have ha : (a :: t) = ['0'] := hzero (by simpa using hh)
          have hp := hparse [] 0
          rw [ha] at hp
          simp [parseDigits, isDigit] at hp
          omega
      · intro cs acc
        rw [List.append_assoc, List.singleton_append, hparse,
          parseDigits_digit _ (Nat.mod_lt _ (by decide))]
        congr 1
        rw [List.length_append, List.length_singleton, pow_succ]
        have := Nat.div_add_mod n 10
        nlinarith [Nat.div_add_mod n 10]

/-- The decimal text of a natural number: digits only, no leading zero, and
`parseDigits` reads the number back. -/
theorem repr_digits (n : Nat) :
    (Nat.repr n).data ≠ [] ∧ (∀ c ∈ (Nat.repr n).data, isDigit c = true) ∧
      ((Nat.repr n).data.head? = some '0' → (Nat.repr n).data = ['0']) ∧
      (∀ (cs : List Char) (acc : Nat),
        parseDigits ((Nat.repr n).data ++ cs) acc =
          parseDigits cs (acc * 10 ^ (Nat.repr n).data.length + n)) := by
  obtain ⟨front, hf, hne, hdig, hzero, hparse⟩ := toDigitsCore_front (n + 1) n [] (by omega)
  have h : (Nat.repr n).data = front := by
    simp [Nat.repr, Nat.toDigits, hf, List.asString]
  rw [h]
  exact ⟨hne, hdig, hzero, hparse⟩

theorem takeDigits_append (ds rest : List Char) (hds : ∀ c ∈ ds, isDigit c = true)
    (hrest : ∀ c, rest.head? = some c → isDigit c = false) :
    takeDigits (ds ++ rest) = (ds, rest) := by
  induction ds with
  | nil =>
    cases rest with
    | nil => rfl
    | cons c cs => simp [takeDigits, hrest c rfl]
  | cons d t ih =>
    have hd : isDigit d = true := hds d (List.mem_cons_self _ _)
    have ht := ih (fun c hc => hds c (List.mem_cons_of_mem _ hc))
    simp [takeDigits, hd, ht]

/-- The text of an integer: an optional minus sign and the digits of its absolute value. -/
theorem toString_int (n : Int) :
    (toString n).data = (if n < 0 then ['-'] else []) ++ (Nat.repr n.natAbs).data := by
  cases n with
  | ofNat m =>
    have h : ¬ (Int.ofNat m < 0) := by simp
    rw [if_neg h]
    rfl
  | negSucc m =>
    have h : Int.negSucc m < 0 := Int.negSucc_lt_zero m
    rw [if_pos h]
    rfl

/-- What may follow a value inside an array or object or at the end of the text. -/
theorem delimiter_facts (rest : List Char)
    (hrest : ∀ c, rest.head? = some c → c = ',' ∨ c = ']' ∨ c = '\x7d') :
    (∀ c, rest.head? = some c → isDigit c = false) ∧
      scanFraction rest = some ([], rest) ∧ scanExponent rest = some ([], rest) := by
  cases rest with
  | nil => exact ⟨by simp, rfl, rfl⟩
  | cons c cs =>
    have hc := hrest c rfl
    refine ⟨?_, ?_, ?_⟩
    · intro d hd
      simp only [List.head?_cons, Option.some.injEq] at hd
      subst hd
      rcases hc with h | h | h <;> (subst h; decide)
    · have h1 : c ≠ '.' := by rcases hc with h | h | h <;> (subst h; decide)
      simp [scanFraction, h1]
    · have h1 : ¬ (c = 'e' ∨ c = 'E') := by rcases hc with h | h | h <;> (subst h; decide)
      simp [scanExponent, h1]

theorem scanIntPart_repr (m : Nat) (rest : List Char)
    (hrest : ∀ c, rest.head? = some c → isDigit c = false) :
    scanIntPart ((Nat.repr m).data ++ rest) = some ((Nat.repr m).data, rest) := by
  obtain ⟨hne, hdig, hzero, _⟩ := repr_digits m
  cases hd : (Nat.repr m).data with
  | nil => exact absurd hd hne
  | cons d t =>
    rw [hd] at hdig hzero
    by_cases h0 : d = '0'
    · subst h0
      have ht : t = [] := by
        have := hzero rfl
        simpa using this
      subst ht
      simp [scanIntPart]
    · have hdd : isDigit d = true := hdig d (List.mem_cons_self _ _)
      have ht := takeDigits_append t rest (fun c hc => hdig c (List.mem_cons_of_mem _ hc)) hrest
      simp [scanIntPart, h0, hdd, ht]

/-- Scanning the text of an integer gives that text back and stops at the delimiter. -/
theorem scanNumber_toString (n : Int) (rest : List Char)
    (hrest : ∀ c, rest.head? = some c → c = ',' ∨ c = ']' ∨ c = '\x7d') :
    scanNumber ((toString n).data ++ rest) = some ((toString n).data, rest) := by
  obtain ⟨hdigit, hfrac, hexp⟩ := delimiter_facts rest hrest
  have hint := scanIntPart_repr n.natAbs rest hdigit
  obtain ⟨hne, hdig, _, _⟩ := repr_digits n.natAbs
  rw [toString_int]
  by_cases hn : n < 0
  · simp only [if_pos hn, List.singleton_append, List.cons_append, List.nil_append]
    simp [scanNumber, hint, hfrac, hexp]
  · simp only [if_neg hn, List.nil_append]
    cases hd : (Nat.repr n.natAbs).data with
    | nil => exact absurd hd hne
    | cons d t =>
      rw [hd] at hint hdig
      rw [List.cons_append] at hint
      have hdd : isDigit d = true := hdig d (List.mem_cons_self _ _)
      have hminus : d ≠ '-' := by
        intro h; subst h; exact absurd hdd (by decide)
      simp [scanNumber, hminus, hint, hfrac, hexp]

theorem render_arr_data (xs : List Json) :
    (render (.arr xs)).data = '[' :: ((renderElems xs).data ++ [']']) := by
  rw [render]
  simp [String.data_append]

theorem render_obj_data (kvs : List (String × Json)) :
    (render (.obj kvs)).data = '\x7b' :: ((renderMembers kvs).data ++ ['\x7d']) := by
  rw [render]
  simp [String.data_append]

theorem render_str_data (s : String) :
    (render (.str s)).data = '"' :: (escapeChars s.data ++ ['"']) := by
  rw [render]
  rfl

theorem renderElems_cons_data (x y : Json) (r : List Json) :
    (renderElems (x :: y :: r)).data = (render x).data ++ ',' :: (renderElems (y :: r)).data := by
  rw [renderElems]
  simp [String.data_append]

theorem renderMembers_single_data (k : String) (v : Json) :
    (renderMembers [(k, v)]).data =
      '"' :: (escapeChars k.data ++ '"' :: ':' :: (render v).data) := by
  rw [renderMembers]
  simp [String.data_append, quote]

theorem renderMembers_cons_data (k : String) (v : Json) (y : String × Json)
    (r : List (String × Json)) :
    (renderMembers ((k, v) :: y :: r)).data =
      '"' :: (escapeChars k.data ++ '"' :: ':' :: ((render v).data ++
        ',' :: (renderMembers (y :: r)).data)) := by
  rw [renderMembers]
  simp [String.data_append, quote]

/-- The text of an integer starts with a minus sign or a digit. -/
theorem toString_int_head (n : Int) :
    ∃ c t, (toString n).data = c :: t ∧ (c = '-' ∨ isDigit c = true) := by
  rw [toString_int]
  obtain ⟨hne, hdig, _, _⟩ := repr_digits n.natAbs
  by_cases hn : n < 0
  · exact ⟨'-', (Nat.repr n.natAbs).data, by simp [hn], Or.inl rfl⟩
  · cases hd : (Nat.repr n.natAbs).data with
    | nil => exact absurd hd hne
    | cons d t =>
      rw [hd] at hdig
      exact ⟨d, t, by simp [hn], Or.inr (hdig d (List.mem_cons_self _ _))⟩

theorem parseValue_number (n : Nat) (c : Char) (r : List Char)
    (hc : c = '-' ∨ isDigit c = true) :
    parseValue (n + 1) (c :: r) =
      (scanNumber (c :: r)).map (fun m => (Json.num ⟨m.1⟩, m.2)) := by
  have hs : isSpace c = false := by
    rcases hc with h | h
    · subst h; decide
    · cases hsp : isSpace c with
      | false => rfl
      | true =>
        simp only [isSpace, decide_eq_true_eq, Bool.decide_or, Bool.or_eq_true] at hsp
        rcases hsp with h1 | h1 | h1 | h1 <;> (subst h1; exact absurd h (by decide))
  have h1 : c ≠ '\x7b' := by
    rintro rfl; rcases hc with h | h <;> exact absurd h (by decide)
  have h2 : c ≠ '[' := by
    rintro rfl; rcases hc with h | h <;> exact absurd h (by decide)
  have h3 : c ≠ '"' := by
    rintro rfl; rcases hc with h | h <;> exact absurd h (by decide)
  rw [parseValue]
  simp only [skipSpace, hs]
  simp [h1, h2, h3, hc]

theorem parseValue_string (n : Nat) (r : List Char) :
    parseValue (n + 1) ('"' :: r) =
      (scanString r).map (fun m => (Json.str ⟨decodeItems m.1⟩, m.2)) := by
  rw [parseValue]
  simp [skipSpace, isSpace]

theorem parseValue_null (n : Nat) (rest : List Char) :
    parseValue (n + 1) ('n' :: 'u' :: 'l' :: 'l' :: rest) = some (.null, rest) := by
  rw [parseValue]
  simp [skipSpace, isSpace, isDigit, stripWord]

theorem parseValue_true (n : Nat) (rest : List Char) :
    parseValue (n + 1) ('t' :: 'r' :: 'u' :: 'e' :: rest) = some (.bool true, rest) := by
  rw [parseValue]
  simp [skipSpace, isSpace, isDigit, stripWord]

theorem parseValue_false (n : Nat) (rest : List Char) :
    parseValue (n + 1) ('f' :: 'a' :: 'l' :: 's' :: 'e' :: rest) = some (.bool false, rest) := by
  rw [parseValue]
  simp [skipSpace, isSpace, isDigit, stripWord]

theorem parseValue_arr_empty (n : Nat) (rest : List Char) :
    parseValue (n + 1) ('[' :: ']' :: rest) = some (.arr [], rest) := by
  rw [parseValue]
  simp [skipSpace, isSpace]

theorem parseValue_arr (n : Nat) (c : Char) (r : List Char) (hs : isSpace c = false)
    (hc : c ≠ ']') :
    parseValue (n + 1) ('[' :: c :: r) =
      (parseElems n (c :: r)).map (fun m => (Json.arr m.1, m.2)) := by
  rw [parseValue]
  have h1 : skipSpace ('[' :: c :: r) = '[' :: c :: r := by simp [skipSpace, isSpace]
  have h2 : skipSpace (c :: r) = c :: r := by simp [skipSpace, hs]
  simp [h1, h2, hc]

theorem parseValue_obj_empty (n : Nat) (rest : List Char) :
    parseValue (n + 1) ('\x7b' :: '\x7d' :: rest) = some (.obj [], rest) := by
  rw [parseValue]
  simp [skipSpace, isSpace]

theorem parseValue_obj (n : Nat) (c : Char) (r : List Char) (hs : isSpace c = false)
    (hc : c ≠ '\x7d') :
    parseValue (n + 1) ('\x7b' :: c :: r) =
      (parseMembers n (c :: r)).map (fun m => (Json.obj m.1, m.2)) := by
  rw [parseValue]
  have h1 : skipSpace ('\x7b' :: c :: r) = '\x7b' :: c :: r := by simp [skipSpace, isSpace]
  have h2 : skipSpace (c :: r) = c :: r := by simp [skipSpace, hs]
  simp [h1, h2, hc]

/-- The encoder's text of a value starts with a character that is no whitespace
and no closing bracket. -/
theorem render_head (j : Json) (hj : j.integral) :
    ∃ c t, (render j).data = c :: t ∧ isSpace c = false ∧ c ≠ ']' ∧ c ≠ '\x7d' := by
  cases j with
  | null => exact ⟨'n', _, rfl, by decide, by decide, by decide⟩
  | bool b => cases b <;> exact ⟨_, _, rfl, by decide, by decide, by decide⟩
  | num lit =>
    obtain ⟨n, hn⟩ := hj
    subst hn
    obtain ⟨c, t, hd, hc⟩ := toString_int_head n
    refine ⟨c, t, hd, ?_, ?_, ?_⟩
    · cases hsp : isSpace c with
      | false => rfl
      | true =>
        simp only [isSpace, decide_eq_true_eq, Bool.decide_or, Bool.or_eq_true] at hsp
        rcases hsp with h1 | h1 | h1 | h1 <;>
          (subst h1; rcases hc with h | h <;> exact absurd h (by decide))
    · rintro rfl; rcases hc with h | h <;> exact absurd h (by decide)
    · rintro rfl; rcases hc with h | h <;> exact absurd h (by decide)
  | str s => exact ⟨'"', _, render_str_data s, by decide, by decide, by decide⟩
  | arr xs => exact ⟨'[', _, render_arr_data xs, by decide, by decide, by decide⟩
  | obj kvs => exact ⟨'\x7b', _, render_obj_data kvs, by decide, by decide, by decide⟩

theorem renderElems_head (xs : List Json) (hne : xs ≠ []) (hxs : integralElems xs) :
    ∃ c t, (renderElems xs).data = c :: t ∧ isSpace c = false ∧ c ≠ ']' := by
  cases xs with
  | nil => exact absurd rfl hne
  | cons x r =>
    rw [integralElems] at hxs
    obtain ⟨c, t, hd, hs, hb, _⟩ := render_head x hxs.1
    cases r with
    | nil =>
      refine ⟨c, t, ?_, hs, hb⟩
      rw [renderElems]
      exact hd
    | cons y r1 =>
      refine ⟨c, t ++ ',' :: (renderElems (y :: r1)).data, ?_, hs, hb⟩
      rw [renderElems_cons_data, hd]
      rfl

theorem renderMembers_head (kvs : List (String × Json)) (hne : kvs ≠ []) :
    ∃ t, (renderMembers kvs).data = '"' :: t := by
  cases kvs with
  | nil => exact absurd rfl hne
  | cons kv r =>
    obtain ⟨k, v⟩ := kv
    cases r with
    | nil => exact ⟨_, renderMembers_single_data k v⟩
    | cons y r1 => exact ⟨_, renderMembers_cons_data k v y r1⟩

mutual
/-- Parsing the encoder's text of a value gives the value back and stops right
after it, with fuel twice the length of the text. -/
theorem parseValue_render : ∀ (j : Json), j.integral → ∀ (n : Nat) (rest : List Char),
    2 * (render j).data.length ≤ n →
    (∀ c, rest.head? = some c → c = ',' ∨ c = ']' ∨ c = '\x7d') →
    parseValue n ((render j).data ++ rest) = some (j, rest)
  | .null, _, n, rest, hn, _ => by
    have hd : (render .null).data = ['n', 'u', 'l', 'l'] := rfl
    rw [hd] at hn ⊢
    obtain ⟨m, rfl⟩ : ∃ m, n = m + 1 := ⟨n - 1, by simp at hn; omega⟩
    exact parseValue_null m rest
  | .bool true, _, n, rest, hn, _ => by
    have hd : (render (.bool true)).data = ['t', 'r', 'u', 'e'] := rfl
    rw [hd] at hn ⊢
    obtain ⟨m, rfl⟩ : ∃ m, n = m + 1 := ⟨n - 1, by simp at hn; omega⟩
    exact parseValue_true m rest
  | .bool false, _, n, rest, hn, _ => by
    have hd : (render (.bool false)).data = ['f', 'a', 'l', 's', 'e'] := rfl
    rw [hd] at hn ⊢
    obtain ⟨m, rfl⟩ : ∃ m, n = m + 1 := ⟨n - 1, by simp at hn; omega⟩
    exact parseValue_false m rest
  | .num lit, hj, n, rest, hn, hr => by
    obtain ⟨k, hk⟩ := hj
    subst hk
    have hd : (render (.num (toString k))).data = (toString k).data := by rw [render]
    rw [hd] at hn ⊢
    obtain ⟨c, t, hct, hc⟩ := toString_int_head k
    obtain ⟨m, rfl⟩ : ∃ m, n = m + 1 := ⟨n - 1, by rw [hct] at hn; simp at hn; omega⟩
    have hscan := scanNumber_toString k rest hr
    rw [hct] at hscan ⊢
    rw [List.cons_append] at hscan ⊢
    rw [parseValue_number m c _ hc, hscan, ← hct]
    rfl
  | .str s, _, n, rest, hn, _ => by
    rw [render_str_data] at hn ⊢
    obtain ⟨m, rfl⟩ : ∃ m, n = m + 1 := ⟨n - 1, by simp at hn; omega⟩
    obtain ⟨items, hs, hdec⟩ := scanString_escapeChars s.data rest
    rw [List.cons_append, List.append_assoc, List.singleton_append, parseValue_string, hs]
    simp only [Option.map_some', hdec]
  | .arr xs, hj, n, rest, hn, _ => by
    rw [render_arr_data] at hn ⊢
    rw [Json.integral] at hj
    obtain ⟨m, rfl⟩ : ∃ m, n = m + 1 := ⟨n - 1, by simp at hn; omega⟩
    rw [List.cons_append, List.append_assoc, List.singleton_append]
    by_cases hxs : xs = []
    · subst hxs
      have he : (renderElems []).data = [] := rfl
      rw [he, List.nil_append]
      exact parseValue_arr_empty m rest
    · obtain ⟨c, t, hd, hs, hb⟩ := renderElems_head xs hxs hj
      have hp := parseElems_render xs hxs hj m rest
        (by simp only [List.length_cons, List.length_append, List.length_singleton] at hn; omega)
      rw [hd, List.cons_append] at hp ⊢
      rw [parseValue_arr m c _ hs hb, hp]
      rfl
  | .obj kvs, hj, n, rest, hn, _ => by
    rw [render_obj_data] at hn ⊢
    rw [Json.integral] at hj
    obtain ⟨m, rfl⟩ : ∃ m, n = m + 1 := ⟨n - 1, by simp at hn; omega⟩
    rw [List.cons_append, List.append_assoc, List.singleton_append]
    by_cases hkvs : kvs = []
    · subst hkvs
      have he : (renderMembers []).data = [] := rfl
      rw [he, List.nil_append]
      exact parseValue_obj_empty m rest
    · obtain ⟨t, hd⟩ := renderMembers_head kvs hkvs
      have hp := parseMembers_render kvs hkvs hj m rest
        (by simp only [List.length_cons, List.length_append, List.length_singleton] at hn; omega)
      rw [hd, List.cons_append] at hp ⊢
      rw [parseValue_obj m '"' _ (by decide) (by decide), hp]
      rfl
/-- Parsing the encoder's text of the elements of an array up to its `]`. -/
theorem parseElems_render : ∀ (xs : List Json), xs ≠ [] → integralElems xs →
    ∀ (n : Nat) (rest : List Char), 2 * (renderElems xs).data.length + 1 ≤ n →
    parseElems n ((renderElems xs).data ++ ']' :: rest) = some (xs, rest)
  | [], hne, _, _, _, _ => absurd rfl hne
  | [x], _, hxs, n, rest, hn => by
    rw [integralElems] at hxs
    have hd : (renderElems [x]).data = (render x).data := by rw [renderElems]
    rw [hd] at hn ⊢
    obtain ⟨m, rfl⟩ : ∃ m, n = m + 1 := ⟨n - 1, by omega⟩
    have hv := parseValue_render x hxs.1 m (']' :: rest) (by omega)
      (by intro c hc; simp only [List.head?_cons, Option.some.injEq] at hc; simp [← hc])
    rw [parseElems, hv]
    simp [skipSpace, isSpace]
  | x :: y :: r, _, hxs, n, rest, hn => by
    rw [integralElems] at hxs
    rw [renderElems_cons_data] at hn ⊢
    obtain ⟨m, rfl⟩ : ∃ m, n = m + 1 := ⟨n - 1, by omega⟩
    simp only [List.length_append, List.length_cons] at hn
    have hv := parseValue_render x hxs.1 m (',' :: ((renderElems (y :: r)).data ++ ']' :: rest))
      (by omega)
      (by intro c hc; simp only [List.head?_cons, Option.some.injEq] at hc; simp [← hc])
    have he := parseElems_render (y :: r) (by simp) hxs.2 m rest (by omega)
    rw [List.append_assoc, List.cons_append, parseElems, hv]
    simp [skipSpace, isSpace, he]
/-- Parsing the encoder's text of the members of an object up to its closing brace. -/
theorem parseMembers_render : ∀ (kvs : List (String × Json)), kvs ≠ [] → integralMembers kvs →
    ∀ (n : Nat) (rest : List Char), 2 * (renderMembers kvs).data.length + 1 ≤ n →
    parseMembers n ((renderMembers kvs).data ++ '\x7d' :: rest) = some (kvs, rest)
  | [], hne, _, _, _, _ => absurd rfl hne
  | [(k, v)], _, hkvs, n, rest, hn => by
    rw [integralMembers] at hkvs
    rw [renderMembers_single_data] at hn ⊢
    obtain ⟨m, rfl⟩ : ∃ m, n = m + 1 := ⟨n - 1, by omega⟩
    simp only [List.length_append, List.length_cons] at hn
    obtain ⟨items, hs, hdec⟩ :=
      scanString_escapeChars k.data (':' :: ((render v).data ++ '\x7d' :: rest))
    have hv := parseValue_render v hkvs.1 m ('\x7d' :: rest) (by omega)
      (by intro c hc; simp only [List.head?_cons, Option.some.injEq] at hc; simp [← hc])
    rw [parseMembers]
    simp only [List.cons_append, List.append_assoc]
    simp [skipSpace, isSpace, hs, hv, hdec]
  | (k, v) :: y :: r, _, hkvs, n, rest, hn => by
    rw [integralMembers] at hkvs
    rw [renderMembers_cons_data] at hn ⊢
    obtain ⟨m, rfl⟩ : ∃ m, n = m + 1 := ⟨n - 1, by omega⟩
    simp only [List.length_append, List.length_cons] at hn
    obtain ⟨items, hs, hdec⟩ :=
      scanString_escapeChars k.data
        (':' :: ((render v).data ++ ',' :: ((renderMembers (y :: r)).data ++ '\x7d' :: rest)))
    have hv := parseValue_render v hkvs.1 m
      (',' :: ((renderMembers (y :: r)).data ++ '\x7d' :: rest)) (by omega)
      (by intro c hc; simp only [List.head?_cons, Option.some.injEq] at hc; simp [← hc])
    have he := parseMembers_render (y :: r) (by simp) hkvs.2 m rest (by omega)
    rw [parseMembers]
    simp only [List.cons_append, List.append_assoc]
    simp [skipSpace, isSpace, hs, hv, hdec, he]
end

/-- Parsing what the encoder wrote gives back the value it wrote. -/
theorem parse_render (j : Json) (hj : j.integral) : parse (render j) = some j := by
  unfold parse
  have h := parseValue_render j hj (2 * (render j).length + 2) []
    (by have : (render j).length = (render j).data.length := rfl
        omega)
    (by simp)
  rw [List.append_nil] at h
  rw [h]
  simp [skipSpace]

/-! ## The encoder on the request records -/

theorem integralElems_strs (xs : List String) : integralElems (xs.map Json.str) := by
  induction xs with
  | nil => simp [integralElems]
  | cons x r ih =>
    rw [List.map_cons, integralElems]
    exact ⟨by simp [Json.integral], ih⟩

theorem integralMembers_append (a b : List (String × Json)) (ha : integralMembers a)
    (hb : integralMembers b) : integralMembers (a ++ b) := by
  induction a with
  | nil => simpa using hb
  | cons kv r ih =>
    obtain ⟨k, v⟩ := kv
    rw [integralMembers] at ha
    rw [List.cons_append, integralMembers]
    exact ⟨ha.1, ih ha.2⟩

theorem integral_stringField (key s : String) : integralMembers (stringField key s) := by
  unfold stringField
  split_ifs <;> simp [integralMembers, Json.integral]

theorem integral_stringsField (key : String) (xs : List String) :
    integralMembers (stringsField key xs) := by
  unfold stringsField
  split_ifs
  · simp [integralMembers]
  · rw [integralMembers, Json.integral]
    exact ⟨integralElems_strs xs, by simp [integralMembers]⟩

theorem integral_intField (key : String) (n : Int) : integralMembers (intField key n) := by
  unfold intField
  split_ifs
  · simp [integralMembers]
  · rw [integralMembers, Json.integral]
    exact ⟨⟨n, rfl⟩, by simp [integralMembers]⟩

theorem integral_pointerField {α : Type} (key : String) (enc : α → Except GoError Json)
    (henc : ∀ a j, enc a = .ok j → j.integral) (o : Option α) (m : List (String × Json))
    (h : pointerField key enc o = .ok m) : integralMembers m := by
  cases o with
  | none =>
    simp only [pointerField, Except.ok.injEq] at h
    subst h
    simp [integralMembers]
  | some a =>
    simp only [pointerField] at h
    cases he : enc a with
    | error e => rw [he] at h; simp [Except.map] at h
    | ok j =>
      rw [he] at h
      simp only [Except.map, Except.ok.injEq] at h
      subst h
      rw [integralMembers]
      exact ⟨henc a j he, by simp [integralMembers]⟩

theorem time_marshalJSON_ok (t : Time) (j : Json) (h : t.MarshalJSON = .ok j) :
    j = .str t.formatRFC3339Nano := by
  unfold Time.MarshalJSON at h
  split_ifs at h
  simp only [Except.ok.injEq] at h
  exact h.symm

theorem timeRange_toJson_ok (t : TimeRange) (j : Json) (h : t.toJson = .ok j) :
    j = .obj [("from", .str t.From.formatRFC3339Nano), ("to", .str t.To.formatRFC3339Nano)] := by
  unfold TimeRange.toJson at h
  cases hf : t.From.MarshalJSON with
  | error e => rw [hf] at h; simp [bind, Except.bind] at h
  | ok f =>
    cases hu : t.To.MarshalJSON with
    | error e => rw [hf, hu] at h; simp [bind, Except.bind] at h
    | ok u =>
      rw [hf, hu] at h
      simp only [bind, Except.bind, pure, Except.pure, Except.ok.injEq] at h
      rw [← h, time_marshalJSON_ok _ _ hf, time_marshalJSON_ok _ _ hu]

theorem timeRange_toJson_integral (t : TimeRange) (j : Json) (h : t.toJson = .ok j) :
    j.integral := by
  rw [timeRange_toJson_ok t j h]
  simp [Json.integral, integralMembers]

/-- The members a successfully encoded filter consists of. -/
theorem marketFilter_toJson_ok (f : MarketFilter) (j : Json) (h : f.toJson = .ok j) :
    ∃ mst, pointerField "marketStartTime" TimeRange.toJson f.MarketStartTime = .ok mst ∧
      j = .obj (stringField "textQuery" f.TextQuery ++
        stringsField "exchangeIds" f.ExchangeIds ++
        stringsField "eventIds" f.EventIds ++
        stringsField "eventTypeIds" f.EventTypeIds ++
        stringsField "marketCountries" f.MarketCountries ++
        stringsField "marketIds" f.MarketIds ++
        stringsField "competitionIds" f.CompetitionIds ++
        stringsField "marketTypeCodes" f.MarketTypeCodes ++ mst) := by
  unfold MarketFilter.toJson at h
  cases hm : pointerField "marketStartTime" TimeRange.toJson f.MarketStartTime with
  | error e => rw [hm] at h; simp [bind, Except.bind] at h
  | ok mst =>
    rw [hm] at h
    simp only [bind, Except.bind, pure, Except.pure, Except.ok.injEq] at h
    exact ⟨mst, rfl, h.symm⟩

theorem marketFilter_toJson_integral (f : MarketFilter) (j : Json) (h : f.toJson = .ok j) :
    j.integral := by
  obtain ⟨mst, hm, hj⟩ := marketFilter_toJson_ok f j h
  rw [hj, Json.integral]
  have hmst := integral_pointerField _ _ timeRange_toJson_integral _ _ hm
  repeat' apply integralMembers_append
  · exact integral_stringField _ _
  · exact integral_stringsField _ _
  · exact integral_stringsField _ _
  · exact integral_stringsField _ _
  · exact integral_stringsField _ _
  · exact integral_stringsField _ _
  · exact integral_stringsField _ _
  · exact integral_stringsField _ _
  · exact hmst

theorem priceProjection_toJson_integral (p : PriceProjection) (j : Json)
    (h : p.toJson = .ok j) : j.integral := by
  unfold PriceProjection.toJson at h
  simp only [Except.ok.injEq] at h
  rw [← h, Json.integral]
  apply integralMembers_append
  · exact integral_stringsField _ _
  · simp [integralMembers, Json.integral]

/-- The members a successfully encoded `Params` consists of. -/
theorem params_toJson_ok (p : Params) (j : Json) (h : p.toJson = .ok j) :
    ∃ fm pm, pointerField "filter" MarketFilter.toJson p.MarketFilter = .ok fm ∧
      pointerField "priceProjection" PriceProjection.toJson p.PriceProjection = .ok pm ∧
      j = .obj (fm ++ stringsField "marketIds" p.MarketIds ++ pm ++
        intField "maxResults" p.MaxResults ++
        stringField "locale" p.Locale ++
        stringsField "marketProjection" p.MarketProjection ++
        stringField "orderProjection" p.OrderProjection ++
        stringField "matchProjection" p.MatchProjection) := by
  unfold Params.toJson at h
  cases hf : pointerField "filter" MarketFilter.toJson p.MarketFilter with
  | error e => rw [hf] at h; simp [bind, Except.bind] at h
  | ok fm =>
    cases hp : pointerField "priceProjection" PriceProjection.toJson p.PriceProjection with
    | error e => rw [hf, hp] at h; simp [bind, Except.bind] at h
    | ok pm =>
      rw [hf, hp] at h
      simp only [bind, Except.bind, pure, Except.pure, Except.ok.injEq] at h
      exact ⟨fm, pm, rfl, rfl, h.symm⟩

theorem params_toJson_integral (p : Params) (j : Json) (h : p.toJson = .ok j) :
    j.integral := by
  obtain ⟨fm, pm, hf, hp, hj⟩ := params_toJson_ok p j h
  rw [hj, Json.integral]
  have hfm := integral_pointerField _ _ marketFilter_toJson_integral _ _ hf
  have hpm := integral_pointerField _ _ priceProjection_toJson_integral _ _ hp
  repeat' apply integralMembers_append
  · exact hfm
  · exact integral_stringsField _ _
  · exact hpm
  · exact integral_intField _ _
  · exact integral_stringField _ _
  · exact integral_stringsField _ _
  · exact integral_stringField _ _
  · exact integral_stringField _ _

/-- A request body is the text of the syntax tree the encoder built, and parsing
it gives that tree back. -/
theorem requestBody_ok (s : Session) (params : Params) (body : String)
    (h : requestBody s params = .ok body) :
    ∃ ast, Params.toJson { params with Locale := s.config.Locale } = .ok ast ∧
      body = render ast ∧ parse body = some ast := by
  unfold requestBody json.Marshal at h
  cases hj : Params.toJson { params with Locale := s.config.Locale } with
  | error e => rw [hj] at h; simp [Except.map] at h
  | ok ast =>
    rw [hj] at h
    simp only [Except.map, Except.ok.injEq] at h
    refine ⟨ast, rfl, h.symm, ?_⟩
    rw [← h]
    exact parse_render ast (params_toJson_integral _ _ hj)

/-! ## Members in the encoder's text -/

theorem renderMembers_infix (k : String) (v : Json) :
    ∀ kvs : List (String × Json), (k, v) ∈ kvs →
      (quote k ++ ":" ++ render v).data <:+: (renderMembers kvs).data
  | [], h => absurd h (List.not_mem_nil _)
  | [(k1, v1)], h => by
    have he : (k, v) = (k1, v1) := by simpa using h
    cases he
    rw [renderMembers]
  | (k1, v1) :: y :: r, h => by
    rw [renderMembers]
    rcases List.mem_cons.mp h with he | ht
    · cases he
      refine ⟨[], ("," ++ renderMembers (y :: r)).data, ?_⟩
      simp [String.data_append]
    · obtain ⟨a, b, hab⟩ := renderMembers_infix k v (y :: r) ht
      refine ⟨(quote k1 ++ ":" ++ render v1 ++ ",").data ++ a, b, ?_⟩
      simp only [String.data_append, List.append_assoc] at hab ⊢
      rw [hab]

/-- A member of an object is found, as `"key":value`, in the object's text. -/
theorem render_obj_occurs (k : String) (v : Json) (kvs : List (String × Json))
    (h : (k, v) ∈ kvs) : occursIn (quote k ++ ":" ++ render v) (render (.obj kvs)) := by
  obtain ⟨a, b, hab⟩ := renderMembers_infix k v kvs h
  refine ⟨'\x7b' :: a, b ++ ['\x7d'], ?_⟩
  rw [render_obj_data, ← hab]
  simp

theorem pointerField_shape {α : Type} (key : String) (enc : α → Except GoError Json)
    (o : Option α) (m : List (String × Json)) (h : pointerField key enc o = .ok m) :
    (o = none ∧ m = []) ∨ ∃ a j, o = some a ∧ enc a = .ok j ∧ m = [(key, j)] := by
  cases o with
  | none =>
    simp only [pointerField, Except.ok.injEq] at h
    exact Or.inl ⟨rfl, h.symm⟩
  | some a =>
    simp only [pointerField] at h
    cases he : enc a with
    | error e => rw [he] at h; simp [Except.map] at h
    | ok j =>
      rw [he] at h
      simp only [Except.map, Except.ok.injEq] at h
      exact Or.inr ⟨a, j, rfl, he, h.symm⟩

theorem stringsField_shape (key : String) (xs : List String) :
    (xs = [] ∧ stringsField key xs = []) ∨
      (xs ≠ [] ∧ stringsField key xs = [(key, .arr (xs.map Json.str))]) := by
  unfold stringsField
  by_cases h : xs = []
  · exact Or.inl ⟨h, by simp [h]⟩
  · exact Or.inr ⟨h, by simp [h]⟩

theorem stringField_shape (key s : String) :
    (s = "" ∧ stringField key s = []) ∨ (s ≠ "" ∧ stringField key s = [(key, .str s)]) := by
  unfold stringField
  by_cases h : s = ""
  · exact Or.inl ⟨h, by simp [h]⟩
  · exact Or.inr ⟨h, by simp [h]⟩

theorem intField_shape (key : String) (n : Int) :
    (n = 0 ∧ intField key n = []) ∨ (n ≠ 0 ∧ intField key n = [(key, .num (toString n))]) := by
  unfold intField
  by_cases h : n = 0
  · exact Or.inl ⟨h, by simp [h]⟩
  · exact Or.inr ⟨h, by simp [h]⟩

theorem mem_keys_stringField (key k s : String) :
    k ∈ (stringField key s).map Prod.fst ↔ k = key ∧ s ≠ "" := by
  rcases stringField_shape key s with ⟨h1, h2⟩ | ⟨h1, h2⟩ <;> rw [h2] <;> simp [h1]

theorem mem_keys_stringsField (key k : String) (xs : List String) :
    k ∈ (stringsField key xs).map Prod.fst ↔ k = key ∧ xs ≠ [] := by
  rcases stringsField_shape key xs with ⟨h1, h2⟩ | ⟨h1, h2⟩ <;> rw [h2] <;> simp [h1]

theorem mem_keys_intField (key k : String) (n : Int) :
    k ∈ (intField key n).map Prod.fst ↔ k = key ∧ n ≠ 0 := by
  rcases intField_shape key n with ⟨h1, h2⟩ | ⟨h1, h2⟩ <;> rw [h2] <;> simp [h1]

theorem mem_keys_pointerField {α : Type} (key k : String) (enc : α → Except GoError Json)
    (o : Option α) (m : List (String × Json)) (h : pointerField key enc o = .ok m) :
    k ∈ m.map Prod.fst ↔ k = key ∧ o ≠ none := by
  rcases pointerField_shape key enc o m h with ⟨h1, h2⟩ | ⟨a, j, h1, _, h2⟩ <;> simp [h1, h2]

/-! ## The decoder on the wire form -/

theorem skipSpace_length (cs : List Char) : (skipSpace cs).length ≤ cs.length := by
  induction cs with
  | nil => simp [skipSpace]
  | cons c t ih =>
    rw [skipSpace]
    split_ifs
    · simp only [List.length_cons]; omega
    · exact Nat.le_refl _

theorem scanFrom_length (cs : List Char) :
    ∀ (st : StrState) (items : List StrItem) (rest : List Char),
      scanFrom st cs = some (items, rest) → rest.length < cs.length := by
  induction cs with
  | nil => intro st items rest h; simp [scanFrom] at h
  | cons c t ih =>
    intro st items rest h
    simp only [List.length_cons]
    cases st with
    | plain =>
      rw [scanFrom] at h
      split_ifs at h with h1 h2 h3
      · simp only [Option.some.injEq, Prod.mk.injEq] at h
        rw [← h.2]; omega
      · have := ih _ _ _ h; omega
      · cases hs : scanFrom .plain t with
        | none => rw [hs] at h; simp at h
        | some r =>
          obtain ⟨i1, r1⟩ := r
          rw [hs] at h
          simp only [Option.map_some', Option.some.injEq, Prod.mk.injEq] at h
          have := ih _ _ _ hs
          rw [← h.2]; omega
    | esc =>
      rw [scanFrom] at h
      split_ifs at h with h1
      · have := ih _ _ _ h; omega
      · cases hu : unescape c with
        | none => rw [hu] at h; simp at h
        | some x =>
          rw [hu] at h
          simp only at h
          cases hs : scanFrom .plain t with
          | none => rw [hs] at h; simp at h
          | some r =>
            obtain ⟨i1, r1⟩ := r
            rw [hs] at h
            simp only [Option.map_some', Option.some.injEq, Prod.mk.injEq] at h
            have := ih _ _ _ hs
            rw [← h.2]; omega
    | hex left acc =>
      rw [scanFrom] at h
      cases hv : hexValue c with
      | none => rw [hv] at h; simp at h
      | some x =>
        rw [hv] at h
        simp only at h
        split_ifs at h with h1
        · cases hs : scanFrom .plain t with
          | none => rw [hs] at h; simp at h
          | some r =>
            obtain ⟨i1, r1⟩ := r
            rw [hs] at h
            simp only [Option.map_some', Option.some.injEq, Prod.mk.injEq] at h
            have := ih _ _ _ hs
            rw [← h.2]; omega
        · have := ih _ _ _ h; omega

theorem scanString_length (cs : List Char) (items : List StrItem) (rest : List Char)
    (h : scanString cs = some (items, rest)) : rest.length < cs.length :=
  scanFrom_length cs .plain items rest h

theorem takeDigits_length (cs : List Char) : (takeDigits cs).2.length ≤ cs.length := by
  induction cs with
  | nil => simp [takeDigits]
  | cons c t ih =>
    rw [takeDigits]
    split_ifs
    · simp only [List.length_cons]; omega
    · exact Nat.le_refl _

theorem scanIntPart_length (cs ip rest : List Char) (h : scanIntPart cs = some (ip, rest)) :
    rest.length < cs.length := by
  cases cs with
  | nil => simp [scanIntPart] at h
  | cons c t =>
    rw [scanIntPart] at h
    simp only [List.length_cons]
    split_ifs at h
    · simp only [Option.some.injEq, Prod.mk.injEq] at h
      rw [← h.2]; omega
    · simp only [Option.some.injEq, Prod.mk.injEq] at h
      have := takeDigits_length t
      rw [← h.2]; omega

theorem scanFraction_length (cs fp rest : List Char) (h : scanFraction cs = some (fp, rest)) :
    rest.length ≤ cs.length := by
  cases cs with
  | nil =>
    simp only [scanFraction, Option.some.injEq, Prod.mk.injEq] at h
    rw [← h.2]
  | cons c t =>
    rw [scanFraction] at h
    simp only [List.length_cons]
    split_ifs at h
    · simp only [Option.some.injEq, Prod.mk.injEq] at h
      have := takeDigits_length t
      rw [← h.2]; omega
    · simp only [Option.some.injEq, Prod.mk.injEq] at h
      rw [← h.2]; simp

theorem scanExponent_length (cs ep rest : List Char) (h : scanExponent cs = some (ep, rest)) :
    rest.length ≤ cs.length := by
  cases cs with
  | nil =>
    simp only [scanExponent, Option.some.injEq, Prod.mk.injEq] at h
    rw [← h.2]
  | cons c t =>
    cases t with
    | nil =>
      simp only [scanExponent] at h
      split_ifs at h
      simp only [Option.some.injEq, Prod.mk.injEq] at h
      rw [← h.2]
    | cons s t1 =>
      simp only [scanExponent] at h
      have h2 := takeDigits_length t1
      have h3 := takeDigits_length (s :: t1)
      simp only [List.length_cons] at h3 ⊢
      split_ifs at h <;>
        (simp only [Option.some.injEq, Prod.mk.injEq] at h; rw [← h.2]
         try simp only [List.length_cons]
         omega)

theorem scanNumber_length (cs lit rest : List Char) (h : scanNumber cs = some (lit, rest)) :
    rest.length < cs.length := by
  unfold scanNumber at h
  simp only at h
  have hsigned : (match cs with
      | [] => (([] : List Char), ([] : List Char))
      | c :: r => if c = '-' then (['-'], r) else ([], c :: r)).2.length ≤ cs.length := by
    cases cs with
    | nil => simp
    | cons c r => simp only; split_ifs <;> simp
  generalize (match cs with
      | [] => (([] : List Char), ([] : List Char))
      | c :: r => if c = '-' then (['-'], r) else ([], c :: r)) = signed at h hsigned
  cases hi : scanIntPart signed.2 with
  | none => rw [hi] at h; simp at h
  | some p1 =>
    obtain ⟨ip, r1⟩ := p1
    rw [hi] at h
    simp only at h
    cases hf : scanFraction r1 with
    | none => rw [hf] at h; simp at h
    | some p2 =>
      obtain ⟨fp, r2⟩ := p2
      rw [hf] at h
      simp only at h
      cases he : scanExponent r2 with
      | none => rw [he] at h; simp at h
      | some p3 =>
        obtain ⟨ep, r3⟩ := p3
        rw [he] at h
        simp only [Option.some.injEq, Prod.mk.injEq] at h
        have h1 := scanIntPart_length _ _ _ hi
        have h2 := scanFraction_length _ _ _ hf
        have h3 := scanExponent_length _ _ _ he
        rw [← h.2]; omega

theorem stripWord_length (w : List Char) :
    ∀ (cs rest : List Char), stripWord w cs = some rest → rest.length ≤ cs.length := by
  induction w with
  | nil =>
    intro cs rest h
    cases cs <;> (simp only [stripWord, Option.some.injEq] at h; rw [← h])
  | cons a t ih =>
    intro cs rest h
    cases cs with
    | nil => simp [stripWord] at h
    | cons c r =>
      rw [stripWord] at h
      split_ifs at h
      have := ih _ _ h
      simp only [List.length_cons]; omega

/-- A parse that succeeds with some fuel consumes input, and succeeds with the same
result for any fuel that is at least twice the number of characters consumed. -/
theorem parser_fuel (n : Nat) :
    (∀ cs v rest, parseValue n cs = some (v, rest) →
      rest.length < cs.length ∧
        ∀ m, 2 * (cs.length - rest.length) ≤ m → parseValue m cs = some (v, rest)) ∧
    (∀ cs vs rest, parseElems n cs = some (vs, rest) →
      rest.length < cs.length ∧
        ∀ m, 2 * (cs.length - rest.length) + 1 ≤ m → parseElems m cs = some (vs, rest)) ∧
    (∀ cs kvs rest, parseMembers n cs = some (kvs, rest) →
      rest.length < cs.length ∧
        ∀ m, 2 * (cs.length - rest.length) + 1 ≤ m →
          parseMembers m cs = some (kvs, rest)) := by
  induction n with
  | zero =>
    refine ⟨?_, ?_, ?_⟩
    · intro cs v rest h; simp [parseValue] at h
    · intro cs vs rest h; simp [parseElems] at h
    · intro cs kvs rest h; simp [parseMembers] at h
  | succ n ih =>
    obtain ⟨ihA, ihB, ihC⟩ := ih
    refine ⟨?_, ?_, ?_⟩
    · intro cs v rest h
      rw [parseValue] at h
      have hsk := skipSpace_length cs
      cases hcs : skipSpace cs with
      | nil => rw [hcs] at h; simp at h
      | cons c r =>
        rw [hcs] at h hsk
        simp only [List.length_cons] at hsk
        simp only at h
        have hsr := skipSpace_length r
        by_cases h1 : c = '\x7b'
        · simp only [h1, if_true] at h
          cases hr : skipSpace r with
          | nil => rw [hr] at h; simp at h
          | cons c1 r1 =>
            rw [hr] at h hsr
            simp only [List.length_cons] at hsr
            simp only at h
            by_cases h2 : c1 = '\x7d'
            · simp only [h2, if_true, Option.some.injEq, Prod.mk.injEq] at h
              obtain ⟨hv, hrest⟩ := h
              subst hv hrest
              refine ⟨by omega, ?_⟩
              intro m hm
              obtain ⟨m1, rfl⟩ : ∃ m1, m = m1 + 1 := ⟨m - 1, by omega⟩
              rw [parseValue, hcs]
              simp only [h1, if_true, hr, h2]
            · simp only [h2, if_false] at h
              cases hm : parseMembers n (c1 :: r1) with
              | none => rw [hm] at h; simp at h
              | some p =>
                obtain ⟨kvs, r2⟩ := p
                rw [hm] at h
                simp only [Option.map_some', Option.some.injEq, Prod.mk.injEq] at h
                obtain ⟨hv, hrest⟩ := h
                subst hv hrest
                obtain ⟨hlen, hfuel⟩ := ihC _ _ _ hm
                simp only [List.length_cons] at hlen hfuel
                refine ⟨by omega, ?_⟩
                intro m hm1
                obtain ⟨m1, rfl⟩ : ∃ m1, m = m1 + 1 := ⟨m - 1, by omega⟩
                rw [parseValue, hcs]
                simp only [h1, if_true, hr, h2, if_false, hfuel m1 (by omega), Option.map_some']
        by_cases h3 : c = '['
        · rw [if_neg h1, if_pos h3] at h
          cases hr : skipSpace r with
          | nil => rw [hr] at h; simp at h
          | cons c1 r1 =>
            rw [hr] at h hsr
            simp only [List.length_cons] at hsr
            simp only at h
            by_cases h2 : c1 = ']'
            · simp only [h2, if_true, Option.some.injEq, Prod.mk.injEq] at h
              obtain ⟨hv, hrest⟩ := h
              subst hv hrest
              refine ⟨by omega, ?_⟩
              intro m hm
              obtain ⟨m1, rfl⟩ : ∃ m1, m = m1 + 1 := ⟨m - 1, by omega⟩
              rw [parseValue, hcs]
              simp only [if_neg h1, if_pos h3, hr, if_pos h2]
            · simp only [h2, if_false] at h
              cases hm : parseElems n (c1 :: r1) with
              | none => rw [hm] at h; simp at h
              | some p =>
                obtain ⟨vs, r2⟩ := p
                rw [hm] at h
                simp only [Option.map_some', Option.some.injEq, Prod.mk.injEq] at h
                obtain ⟨hv, hrest⟩ := h
                subst hv hrest
                obtain ⟨hlen, hfuel⟩ := ihB _ _ _ hm
                simp only [List.length_cons] at hlen hfuel
                refine ⟨by omega, ?_⟩
                intro m hm1
                obtain ⟨m1, rfl⟩ : ∃ m1, m = m1 + 1 := ⟨m - 1, by omega⟩
                rw [parseValue, hcs]
                simp only [if_neg h1, if_pos h3, hr, if_neg h2, hfuel m1 (by omega),
                  Option.map_some']
        have hrest : rest.length < (c :: r).length := by
          simp only [h1, h3, if_false] at h
          simp only [List.length_cons]
          split_ifs at h with h4 h5 h6 h7 h8
          · cases hs : scanString r with
            | none => rw [hs] at h; simp at h
            | some p =>
              rw [hs] at h
              simp only [Option.map_some', Option.some.injEq, Prod.mk.injEq] at h
              have := scanString_length _ _ _ hs
              rw [← h.2]; omega
          · cases hs : scanNumber (c :: r) with
            | none => rw [hs] at h; simp at h
            | some p =>
              rw [hs] at h
              simp only [Option.map_some', Option.some.injEq, Prod.mk.injEq] at h
              have := scanNumber_length _ _ _ hs
              simp only [List.length_cons] at this
              rw [← h.2]; omega
          · cases hs : stripWord "rue".data r with
            | none => rw [hs] at h; simp at h
            | some p =>
              rw [hs] at h
              simp only [Option.map_some', Option.some.injEq, Prod.mk.injEq] at h
              have := stripWord_length _ _ _ hs
              rw [← h.2]; omega
          · cases hs : stripWord "alse".data r with
            | none => rw [hs] at h; simp at h
            | some p =>
              rw [hs] at h
              simp only [Option.map_some', Option.some.injEq, Prod.mk.injEq] at h
              have := stripWord_length _ _ _ hs
              rw [← h.2]; omega
          · cases hs : stripWord "ull".data r with
            | none => rw [hs] at h; simp at h
            | some p =>
              rw [hs] at h
              simp only [Option.map_some', Option.some.injEq, Prod.mk.injEq] at h
              have := stripWord_length _ _ _ hs
              rw [← h.2]; omega
        simp only [List.length_cons] at hrest
        refine ⟨by omega, ?_⟩
        intro m hm
        obtain ⟨m1, rfl⟩ : ∃ m1, m = m1 + 1 := ⟨m - 1, by omega⟩
        rw [parseValue, hcs]
        simp only [h1, h3, if_false] at h ⊢
        exact h
    · intro cs vs rest h
      rw [parseElems] at h
      cases hv : parseValue n cs with
      | none => rw [hv] at h; simp at h
      | some p =>
        obtain ⟨v, r⟩ := p
        rw [hv] at h
        simp only at h
        obtain ⟨hlen, hfuel⟩ := ihA _ _ _ hv
        have hsr := skipSpace_length r
        cases hr : skipSpace r with
        | nil => rw [hr] at h; simp at h
        | cons c r1 =>
          rw [hr] at h hsr
          simp only [List.length_cons] at hsr
          simp only at h
          by_cases h1 : c = ','
          · simp only [h1, if_true] at h
            cases he : parseElems n r1 with
            | none => rw [he] at h; simp at h
            | some p =>
              obtain ⟨vs1, r2⟩ := p
              rw [he] at h
              simp only [Option.map_some', Option.some.injEq, Prod.mk.injEq] at h
              obtain ⟨hvs, hrest⟩ := h
              subst hvs hrest
              obtain ⟨hlen1, hfuel1⟩ := ihB _ _ _ he
              refine ⟨by omega, ?_⟩
              intro m hm
              obtain ⟨m1, rfl⟩ : ∃ m1, m = m1 + 1 := ⟨m - 1, by omega⟩
              rw [parseElems, hfuel m1 (by omega)]
              simp only [hr, h1, if_true, hfuel1 m1 (by omega), Option.map_some']
          · simp only [h1, if_false] at h
            by_cases h2 : c = ']'
            · simp only [h2, if_true, Option.some.injEq, Prod.mk.injEq] at h
              obtain ⟨hvs, hrest⟩ := h
              subst hvs hrest
              refine ⟨by omega, ?_⟩
              intro m hm
              obtain ⟨m1, rfl⟩ : ∃ m1, m = m1 + 1 := ⟨m - 1, by omega⟩
              rw [parseElems, hfuel m1 (by omega)]
              simp only [hr, if_neg h1, if_pos h2]
            · simp [h2] at h
    · intro cs kvs rest h
      rw [parseMembers] at h
      have hsk := skipSpace_length cs
      cases hcs : skipSpace cs with
      | nil => rw [hcs] at h; simp at h
      | cons q r =>
        rw [hcs] at h hsk
        simp only [List.length_cons] at hsk
        simp only at h
        by_cases hq : q = '"'
        · simp only [hq, if_true] at h
          cases hs : scanString r with
          | none => rw [hs] at h; simp at h
          | some p =>
            obtain ⟨items, r1⟩ := p
            rw [hs] at h
            simp only at h
            have hl1 := scanString_length _ _ _ hs
            have hsr1 := skipSpace_length r1
            cases hr1 : skipSpace r1 with
            | nil => rw [hr1] at h; simp at h
            | cons c r2 =>
              rw [hr1] at h hsr1
              simp only [List.length_cons] at hsr1
              simp only at h
              by_cases hc : c = ':'
              · simp only [hc, if_true] at h
                cases hv : parseValue n r2 with
                | none => rw [hv] at h; simp at h
                | some p =>
                  obtain ⟨v, r3⟩ := p
                  rw [hv] at h
                  simp only at h
                  obtain ⟨hlen, hfuel⟩ := ihA _ _ _ hv
                  have hsr3 := skipSpace_length r3
                  cases hr3 : skipSpace r3 with
                  | nil => rw [hr3] at h; simp at h
                  | cons c1 r4 =>
                    rw [hr3] at h hsr3
                    simp only [List.length_cons] at hsr3
                    simp only at h
                    by_cases h1 : c1 = ','
                    · simp only [h1, if_true] at h
                      cases he : parseMembers n r4 with
                      | none => rw [he] at h; simp at h
                      | some p =>
                        obtain ⟨kvs1, r5⟩ := p
                        rw [he] at h
                        simp only [Option.map_some', Option.some.injEq, Prod.mk.injEq] at h
                        obtain ⟨hkvs, hrest⟩ := h
                        subst hkvs hrest
                        obtain ⟨hlen1, hfuel1⟩ := ihC _ _ _ he
                        refine ⟨by omega, ?_⟩
                        intro m hm
                        obtain ⟨m1, rfl⟩ : ∃ m1, m = m1 + 1 := ⟨m - 1, by omega⟩
                        rw [parseMembers, hcs]
                        simp only [hq, if_true, hs, hr1, hc, hfuel m1 (by omega), hr3, h1,
                          hfuel1 m1 (by omega), Option.map_some']
                    · simp only [h1, if_false] at h
                      by_cases h2 : c1 = '\x7d'
                      · simp only [h2, if_true, Option.some.injEq, Prod.mk.injEq] at h
                        obtain ⟨hkvs, hrest⟩ := h
                        subst hkvs hrest
                        refine ⟨by omega, ?_⟩
                        intro m hm
                        obtain ⟨m1, rfl⟩ : ∃ m1, m = m1 + 1 := ⟨m - 1, by omega⟩
                        rw [parseMembers, hcs]
                        simp only [if_pos hq, hs, hr1, if_pos hc, hfuel m1 (by omega), hr3,
                          if_neg h1, if_pos h2]
                      · simp [h2] at h
              · simp [hc] at h
        · simp [hq] at h

/-- The fuel `parse` gives the parser is enough: if any fuel parses the whole text, so
does `parse`. -/
theorem parse_of_parseValue (data : String) (n : Nat) (v : Json) (rest : List Char)
    (h : parseValue n data.data = some (v, rest)) (hrest : skipSpace rest = []) :
    parse data = some v := by
  obtain ⟨_, hfuel⟩ := (parser_fuel n).1 _ _ _ h
  unfold parse
  have hl : data.length = data.data.length := rfl
  rw [hfuel (2 * data.length + 2) (by omega)]
  simp [hrest]

/-- C1: `ListMarketBook` with `marketIds = ["1.123456"]` and locale `"en"` hands the transport
one body, shown in full.  It holds `"marketIds":["1.123456"]` and `"matchProjection":"NO_ROLLUP"`
and no `"filter"` key, but the price projection object also carries the `Virtualise` and
`RolloverStakes` members, so the text `"priceProjection":{"priceData":["EX_BEST_OFFERS"]}` does
not occur in it.  For every session and every list of ids the body is the text of the object
given last, whose `priceProjection` member always has the three keys. -/
theorem listMarketBook_body_has_untagged_members (dec : Decoder (List MarketBook))
    (reply : Call → String × Option GoError) :
    (ListMarketBook dec (recording reply) english ["1.123456"] []).2 =
        [⟨"betting", "listMarketBook",
          "\x7b\"marketIds\":[\"1.123456\"],\"priceProjection\":\x7b\"priceData\":[\"EX_BEST_OFFERS\"],\"Virtualise\":false,\"RolloverStakes\":false\x7d,\"locale\":\"en\",\"matchProjection\":\"NO_ROLLUP\"\x7d"⟩] ∧
      requestBody english (ListMarketBook.params ["1.123456"]) =
        .ok "\x7b\"marketIds\":[\"1.123456\"],\"priceProjection\":\x7b\"priceData\":[\"EX_BEST_OFFERS\"],\"Virtualise\":false,\"RolloverStakes\":false\x7d,\"locale\":\"en\",\"matchProjection\":\"NO_ROLLUP\"\x7d" ∧
      occursIn "\"marketIds\":[\"1.123456\"]"
        "\x7b\"marketIds\":[\"1.123456\"],\"priceProjection\":\x7b\"priceData\":[\"EX_BEST_OFFERS\"],\"Virtualise\":false,\"RolloverStakes\":false\x7d,\"locale\":\"en\",\"matchProjection\":\"NO_ROLLUP\"\x7d" ∧
      occursIn "\"matchProjection\":\"NO_ROLLUP\""
        "\x7b\"marketIds\":[\"1.123456\"],\"priceProjection\":\x7b\"priceData\":[\"EX_BEST_OFFERS\"],\"Virtualise\":false,\"RolloverStakes\":false\x7d,\"locale\":\"en\",\"matchProjection\":\"NO_ROLLUP\"\x7d" ∧
      ¬ occursIn "\"filter\""
        "\x7b\"marketIds\":[\"1.123456\"],\"priceProjection\":\x7b\"priceData\":[\"EX_BEST_OFFERS\"],\"Virtualise\":false,\"RolloverStakes\":false\x7d,\"locale\":\"en\",\"matchProjection\":\"NO_ROLLUP\"\x7d" ∧
      ¬ occursIn "\"priceProjection\":\x7b\"priceData\":[\"EX_BEST_OFFERS\"]\x7d"
        "\x7b\"marketIds\":[\"1.123456\"],\"priceProjection\":\x7b\"priceData\":[\"EX_BEST_OFFERS\"],\"Virtualise\":false,\"RolloverStakes\":false\x7d,\"locale\":\"en\",\"matchProjection\":\"NO_ROLLUP\"\x7d" ∧
      (∀ (s : Session) (marketIds : List String),
        requestBody s (ListMarketBook.params marketIds) =
          .ok (render (.obj (stringsField "marketIds" marketIds ++
            [("priceProjection", .obj [("priceData", .arr [.str "EX_BEST_OFFERS"]),
              ("Virtualise", .bool false), ("RolloverStakes", .bool false)])] ++
            stringField "locale" s.config.Locale ++
            [("matchProjection", .str "NO_ROLLUP")])))) := by
  have hb : requestBody english (ListMarketBook.params ["1.123456"]) =
      .ok "\x7b\"marketIds\":[\"1.123456\"],\"priceProjection\":\x7b\"priceData\":[\"EX_BEST_OFFERS\"],\"Virtualise\":false,\"RolloverStakes\":false\x7d,\"locale\":\"en\",\"matchProjection\":\"NO_ROLLUP\"\x7d" := by
    rfl
  refine ⟨?_, hb, by decide, by decide, by decide, by decide, ?_⟩
  · simp only [ListMarketBook]
    rw [doBettingRequest_recorded dec reply _ _ _ _ _ _ hb]
    rfl
  · intro s marketIds
    simp [requestBody, json.Marshal, Params.toJson, ListMarketBook.params, pointerField,
      PriceProjection.toJson, stringsField, intField, stringField, bind, Except.bind,
      Except.map, pure, Except.pure]


/-- C2: for each of the seven operations, when the request body was produced and the
transport, invoked with `"betting"`, the operation's method name and that body, returns
the error `e`, the operation returns exactly `e` together with the empty result list it
started from, in the world the transport left. -/
theorem transport_error_is_returned_unchanged {σ : Type} (doRequest : Transport σ)
    (s : Session) (filter : Option MarketFilter) (marketIds : List String) (maxResults : Int)
    (decE : Decoder (List EventResult)) (decB : Decoder (List MarketBook))
    (decC : Decoder (List MarketCatalogue)) (w w1 : σ) (data : String) (e : GoError) :
    (∀ body, requestBody s (ListCompetitions.params filter) = .ok body →
      doRequest s "betting" "listCompetitions" body w = ((data, some e), w1) →
      ListCompetitions doRequest s filter w = (([], some e), w1)) ∧
    (∀ body, requestBody s (ListCountries.params filter) = .ok body →
      doRequest s "betting" "listCountries" body w = ((data, some e), w1) →
      ListCountries doRequest s filter w = (([], some e), w1)) ∧
    (∀ body, requestBody s (ListEvents.params filter) = .ok body →
      doRequest s "betting" "listEvents" body w = ((data, some e), w1) →
      ListEvents decE doRequest s filter w = (([], some e), w1)) ∧
    (∀ body, requestBody s (ListEventTypes.params filter) = .ok body →
      doRequest s "betting" "listEventTypes" body w = ((data, some e), w1) →
      ListEventTypes doRequest s filter w = (([], some e), w1)) ∧
    (∀ body, requestBody s (ListMarketBook.params marketIds) = .ok body →
      doRequest s "betting" "listMarketBook" body w = ((data, some e), w1) →
      ListMarketBook decB doRequest s marketIds w = (([], some e), w1)) ∧
    (∀ body, requestBody s (ListMarketCatalogue.params filter maxResults) = .ok body →
      doRequest s "betting" "listMarketCatalogue" body w = ((data, some e), w1) →
      ListMarketCatalogue decC doRequest s filter maxResults w = (([], some e), w1)) ∧
    (∀ body, requestBody s (ListMarketTypes.params filter) = .ok body →
      doRequest s "betting" "listMarketTypes" body w = ((data, some e), w1) →
      ListMarketTypes doRequest s filter w = (([], some e), w1)) := by
  refine ⟨?_, ?_, ?_, ?_, ?_, ?_, ?_⟩ <;> intro body hb ht
  · simp only [ListCompetitions, doBettingRequest_transport_error _ _ _ _ _ _ _ _ _ _ _ hb ht]
  · simp only [ListCountries, doBettingRequest_transport_error _ _ _ _ _ _ _ _ _ _ _ hb ht]
  · simp only [ListEvents, doBettingRequest_transport_error _ _ _ _ _ _ _ _ _ _ _ hb ht]
  · simp only [ListEventTypes, doBettingRequest_transport_error _ _ _ _ _ _ _ _ _ _ _ hb ht]
  · simp only [ListMarketBook, doBettingRequest_transport_error _ _ _ _ _ _ _ _ _ _ _ hb ht]
  · simp only [ListMarketCatalogue, doBettingRequest_transport_error _ _ _ _ _ _ _ _ _ _ _ hb ht]
  · simp only [ListMarketTypes, doBettingRequest_transport_error _ _ _ _ _ _ _ _ _ _ _ hb ht]

/-- C2 at a concrete input: locale `"en"`, the empty filter, one market id, a cap of 10 and a
transport that refuses every request. -/
theorem transport_error_is_returned_unchanged_witness :
    ListCompetitions refusing english (some {}) () =
        (([], some (.other "connection refused")), ()) ∧
      ListCountries refusing english (some {}) () =
        (([], some (.other "connection refused")), ()) ∧
      ListEvents (idleDecoder _) refusing english (some {}) () =
        (([], some (.other "connection refused")), ()) ∧
      ListEventTypes refusing english (some {}) () =
        (([], some (.other "connection refused")), ()) ∧
      ListMarketBook (idleDecoder _) refusing english ["1.123456"] () =
        (([], some (.other "connection refused")), ()) ∧
      ListMarketCatalogue (idleDecoder _) refusing english (some {}) 10 () =
        (([], some (.other "connection refused")), ()) ∧
      ListMarketTypes refusing english (some {}) () =
        (([], some (.other "connection refused")), ()) :=
  have h := transport_error_is_returned_unchanged refusing english
    (some {}) ["1.123456"] 10 (idleDecoder _) (idleDecoder _) (idleDecoder _) () () ""
    (.other "connection refused")
  ⟨h.1 _ rfl rfl, h.2.1 _ rfl rfl, h.2.2.1 _ rfl rfl, h.2.2.2.1 _ rfl rfl,
    h.2.2.2.2.1 _ rfl rfl, h.2.2.2.2.2.1 _ rfl rfl, h.2.2.2.2.2.2 _ rfl rfl⟩


/-- C3: with a session locale `L` that is not empty, whenever `doBettingRequest` gets as far
as the transport, the body it hands over (seen by a logging transport) contains the text
`"locale":` followed by the JSON string for `L`, parses to an object whose `locale` member
is the string `L`, and is the same body whatever `Locale` the caller had put in `Params`. -/
theorem locale_comes_from_session {α : Type} (dec : Decoder α)
    (reply : Call → String × Option GoError) (s : Session) (method : String) (params : Params)
    (v : α) (log : List Call) (body : String) (hL : s.config.Locale ≠ "")
    (h : requestBody s params = .ok body) :
    (doBettingRequest dec (recording reply) s method params v log).world =
        log ++ [⟨"betting", method, body⟩] ∧
      occursIn ("\"locale\":" ++ quote s.config.Locale) body ∧
      (∃ ast, parse body = some ast ∧ ast.get? "locale" = some (.str s.config.Locale)) ∧
      (∀ l : String, requestBody s { params with Locale := l } = .ok body) ∧
      (doBettingRequest dec (recording reply) s method params v log).params.Locale =
        s.config.Locale := by
  obtain ⟨ast, hast, hbody, hparse⟩ := requestBody_ok s params body h
  obtain ⟨fm, pm, hf, hp, hj⟩ := params_toJson_ok _ _ hast
  have hloc : stringField "locale" s.config.Locale = [("locale", .str s.config.Locale)] := by
    simp [stringField, hL]
  simp only [hloc] at hj
  refine ⟨doBettingRequest_recorded dec reply s method params v log body h, ?_, ?_, ?_, ?_⟩
  · rw [hbody, hj]
    have hq : ("\"locale\":" : String) = quote "locale" ++ ":" := by decide
    have hr : render (.str s.config.Locale) = quote s.config.Locale := by rw [render]
    rw [hq, ← hr]
    apply render_obj_occurs
    simp
  · refine ⟨ast, hparse, ?_⟩
    rw [hj]
    rcases pointerField_shape _ _ _ _ hf with ⟨_, hfm⟩ | ⟨a, j, _, _, hfm⟩ <;>
      rcases pointerField_shape _ _ _ _ hp with ⟨_, hpm⟩ | ⟨a1, j1, _, _, hpm⟩ <;>
      rcases stringsField_shape "marketIds" params.MarketIds with ⟨_, hm⟩ | ⟨_, hm⟩ <;>
      rcases intField_shape "maxResults" params.MaxResults with ⟨_, hi⟩ | ⟨_, hi⟩ <;>
      simp [Json.get?, hfm, hpm, hm, hi]
  · intro l
    rw [← h]
    rfl
  · rw [doBettingRequest_params]

/-- C3 at a concrete input: locale `"en"`, a `Params` whose caller had set the locale `"fr"`. -/
theorem locale_comes_from_session_witness :
    english.config.Locale ≠ "" ∧
      requestBody english { Locale := "fr" } = .ok "\x7b\"locale\":\"en\"\x7d" ∧
      (doBettingRequest (idleDecoder (List EventResult)) (recording emptyReply) english
          "listEvents" { Locale := "fr" } [] []).world =
        [⟨"betting", "listEvents", "\x7b\"locale\":\"en\"\x7d"⟩] ∧
      occursIn "\"locale\":\"en\"" "\x7b\"locale\":\"en\"\x7d" :=
  have h := locale_comes_from_session (idleDecoder (List EventResult)) emptyReply english
    "listEvents" { Locale := "fr" } [] [] "\x7b\"locale\":\"en\"\x7d" (by decide) rfl
  ⟨by decide, rfl, h.1, h.2.1⟩

/-- C6: with a transport that logs its invocations and answers them in any way (success or
error), each of the seven operations whose parameters serialize to `body` extends the log
by exactly one entry: service group `"betting"`, its own method name, and `body`. -/
theorem each_operation_invokes_transport_once (reply : Call → String × Option GoError)
    (s : Session) (filter : Option MarketFilter) (marketIds : List String) (maxResults : Int)
    (decE : Decoder (List EventResult)) (decB : Decoder (List MarketBook))
    (decC : Decoder (List MarketCatalogue)) (log : List Call) :
    (∀ body, requestBody s (ListCompetitions.params filter) = .ok body →
      (ListCompetitions (recording reply) s filter log).2 =
        log ++ [⟨"betting", "listCompetitions", body⟩]) ∧
    (∀ body, requestBody s (ListCountries.params filter) = .ok body →
      (ListCountries (recording reply) s filter log).2 =
        log ++ [⟨"betting", "listCountries", body⟩]) ∧
    (∀ body, requestBody s (ListEvents.params filter) = .ok body →
      (ListEvents decE (recording reply) s filter log).2 =
        log ++ [⟨"betting", "listEvents", body⟩]) ∧
    (∀ body, requestBody s (ListEventTypes.params filter) = .ok body →
      (ListEventTypes (recording reply) s filter log).2 =
        log ++ [⟨"betting", "listEventTypes", body⟩]) ∧
    (∀ body, requestBody s (ListMarketBook.params marketIds) = .ok body →
      (ListMarketBook decB (recording reply) s marketIds log).2 =
        log ++ [⟨"betting", "listMarketBook", body⟩]) ∧
    (∀ body, requestBody s (ListMarketCatalogue.params filter maxResults) = .ok body →
      (ListMarketCatalogue decC (recording reply) s filter maxResults log).2 =
        log ++ [⟨"betting", "listMarketCatalogue", body⟩]) ∧
    (∀ body, requestBody s (ListMarketTypes.params filter) = .ok body →
      (ListMarketTypes (recording reply) s filter log).2 =
        log ++ [⟨"betting", "listMarketTypes", body⟩]) := by
  refine ⟨?_, ?_, ?_, ?_, ?_, ?_, ?_⟩ <;> intro body hb
  · simp only [ListCompetitions, doBettingRequest_recorded _ _ _ _ _ _ _ _ hb]
  · simp only [ListCountries, doBettingRequest_recorded _ _ _ _ _ _ _ _ hb]
  · simp only [ListEvents, doBettingRequest_recorded _ _ _ _ _ _ _ _ hb]
  · simp only [ListEventTypes, doBettingRequest_recorded _ _ _ _ _ _ _ _ hb]
  · simp only [ListMarketBook, doBettingRequest_recorded _ _ _ _ _ _ _ _ hb]
  · simp only [ListMarketCatalogue, doBettingRequest_recorded _ _ _ _ _ _ _ _ hb]
  · simp only [ListMarketTypes, doBettingRequest_recorded _ _ _ _ _ _ _ _ hb]

/-- C6 at a concrete input: locale `"en"`, the empty filter, one market id, a cap of 10, an
empty log, once with a transport that answers `[]` and once with one that fails. -/
theorem each_operation_invokes_transport_once_witness :
    (ListCompetitions (recording emptyReply) english (some {}) []).2 =
        [⟨"betting", "listCompetitions", "\x7b\"filter\":\x7b\x7d,\"locale\":\"en\"\x7d"⟩] ∧
      (ListCountries (recording emptyReply) english (some {}) []).2 =
        [⟨"betting", "listCountries", "\x7b\"filter\":\x7b\x7d,\"locale\":\"en\"\x7d"⟩] ∧
      (ListEvents (idleDecoder _) (recording emptyReply) english (some {}) []).2 =
        [⟨"betting", "listEvents", "\x7b\"filter\":\x7b\x7d,\"locale\":\"en\"\x7d"⟩] ∧
      (ListEventTypes (recording emptyReply) english (some {}) []).2 =
        [⟨"betting", "listEventTypes", "\x7b\"filter\":\x7b\x7d,\"locale\":\"en\"\x7d"⟩] ∧
      (ListMarketBook (idleDecoder _) (recording emptyReply) english ["1.123456"] []).2 =
        [⟨"betting", "listMarketBook",
          "\x7b\"marketIds\":[\"1.123456\"],\"priceProjection\":\x7b\"priceData\":[\"EX_BEST_OFFERS\"],\"Virtualise\":false,\"RolloverStakes\":false\x7d,\"locale\":\"en\",\"matchProjection\":\"NO_ROLLUP\"\x7d"⟩] ∧
      (ListMarketCatalogue (idleDecoder _) (recording emptyReply) english (some {}) 10 []).2 =
        [⟨"betting", "listMarketCatalogue",
          "\x7b\"filter\":\x7b\x7d,\"maxResults\":10,\"locale\":\"en\",\"marketProjection\":[\"RUNNER_METADATA\",\"EVENT\",\"MARKET_START_TIME\",\"MARKET_DESCRIPTION\"]\x7d"⟩] ∧
      (ListMarketTypes (recording (fun _ => ("", some (.other "timeout")))) english (some {}) []).2 =
        [⟨"betting", "listMarketTypes", "\x7b\"filter\":\x7b\x7d,\"locale\":\"en\"\x7d"⟩] :=
  have h := each_operation_invokes_transport_once emptyReply english (some {}) ["1.123456"] 10
    (idleDecoder _) (idleDecoder _) (idleDecoder _) []
  have h1 := each_operation_invokes_transport_once (fun _ => ("", some (.other "timeout")))
    english (some {}) ["1.123456"] 10 (idleDecoder _) (idleDecoder _) (idleDecoder _) []
  ⟨h.1 _ rfl, h.2.1 _ rfl, h.2.2.1 _ rfl, h.2.2.2.1 _ rfl, h.2.2.2.2.1 _ rfl,
    h.2.2.2.2.2.1 _ rfl, h1.2.2.2.2.2.2 _ rfl⟩

/-- C7: when serializing the stamped `Params` fails with `err`, `doBettingRequest` returns
`err`, leaves the destination and the world as they were, does so whatever transport it
was given, and a logging transport's log gains no entry. -/
theorem serialization_failure_skips_transport {α σ : Type} (dec : Decoder α)
    (doRequest : Transport σ) (s : Session) (method : String) (params : Params) (v : α) (w : σ)
    (err : GoError) (h : requestBody s params = .error err) :
    (doBettingRequest dec doRequest s method params v w).err = some err ∧
      (doBettingRequest dec doRequest s method params v w).v = v ∧
      (doBettingRequest dec doRequest s method params v w).world = w ∧
      (∀ other : Transport σ,
        (doBettingRequest dec other s method params v w).err = some err ∧
          (doBettingRequest dec other s method params v w).world = w) ∧
      (∀ (reply : Call → String × Option GoError) (log : List Call),
        (doBettingRequest dec (recording reply) s method params v log).err = some err ∧
          (doBettingRequest dec (recording reply) s method params v log).world = log) := by
  refine ⟨?_, ?_, ?_, fun other => ⟨?_, ?_⟩, fun reply log => ⟨?_, ?_⟩⟩ <;>
    rw [doBettingRequest_marshal_error _ _ _ _ _ _ _ _ h]

/-- C7 at a concrete input: a filter whose market-start-time range starts in the year 10000
does not serialize, and `doBettingRequest` returns the encoder's error. -/
theorem serialization_failure_skips_transport_witness :
    requestBody english (ListEvents.params (some farFutureFilter)) =
        .error (.MarshalerError "time.Time" yearRangeMsg) ∧
      (doBettingRequest (idleDecoder (List EventResult)) (recording emptyReply) english
          "listEvents" (ListEvents.params (some farFutureFilter)) [] []).err =
        some (.MarshalerError "time.Time" yearRangeMsg) ∧
      (doBettingRequest (idleDecoder (List EventResult)) (recording emptyReply) english
          "listEvents" (ListEvents.params (some farFutureFilter)) [] []).world = [] :=
  have h := serialization_failure_skips_transport (idleDecoder (List EventResult))
    (recording emptyReply) english "listEvents" (ListEvents.params (some farFutureFilter)) [] []
    (.MarshalerError "time.Time" yearRangeMsg) rfl
  ⟨rfl, h.1, h.2.2.1⟩

/-- C8: for every filter and cap the `Params` that `ListMarketCatalogue` passes to
`doBettingRequest` has the four market projections in the stated order, the given filter
and cap, every other field at its zero value, and depends on nothing but the filter and
the cap. -/
theorem listMarketCatalogue_params_fixed (filter : Option MarketFilter) (maxResults : Int) :
    (ListMarketCatalogue.params filter maxResults).MarketProjection =
        ["RUNNER_METADATA", "EVENT", "MARKET_START_TIME", "MARKET_DESCRIPTION"] ∧
      (ListMarketCatalogue.params filter maxResults).MarketFilter = filter ∧
      (ListMarketCatalogue.params filter maxResults).MaxResults = maxResults ∧
      ListMarketCatalogue.params filter maxResults =
        { MarketFilter := filter, MaxResults := maxResults,
          MarketProjection := ["RUNNER_METADATA", "EVENT", "MARKET_START_TIME", "MARKET_DESCRIPTION"] } ∧
      (∀ (filter1 : Option MarketFilter) (maxResults1 : Int),
        filter1 = filter → maxResults1 = maxResults →
        ListMarketCatalogue.params filter1 maxResults1 = ListMarketCatalogue.params filter maxResults) ∧
      (∀ (σ : Type) (dec : Decoder (List MarketCatalogue)) (doRequest : Transport σ) (s : Session)
        (w : σ),
        ListMarketCatalogue dec doRequest s filter maxResults w =
          (((doBettingRequest dec doRequest s "listMarketCatalogue"
              (ListMarketCatalogue.params filter maxResults) [] w).v,
            (doBettingRequest dec doRequest s "listMarketCatalogue"
              (ListMarketCatalogue.params filter maxResults) [] w).err),
           (doBettingRequest dec doRequest s "listMarketCatalogue"
              (ListMarketCatalogue.params filter maxResults) [] w).world) ∧
        (doBettingRequest dec doRequest s "listMarketCatalogue"
            (ListMarketCatalogue.params filter maxResults) [] w).params =
          { MarketFilter := filter, MaxResults := maxResults, Locale := s.config.Locale,
            MarketProjection :=
              ["RUNNER_METADATA", "EVENT", "MARKET_START_TIME", "MARKET_DESCRIPTION"] }) := by
  refine ⟨rfl, rfl, rfl, rfl, ?_, ?_⟩
  · intro f1 m1 hf hm
    rw [hf, hm]
  · intro σ dec doRequest s w
    refine ⟨rfl, ?_⟩
    rcases hb : requestBody s (ListMarketCatalogue.params filter maxResults) with err | body
    · rw [doBettingRequest_marshal_error _ _ _ _ _ _ _ _ hb]
      rfl
    · rcases ht : doRequest s "betting" "listMarketCatalogue" body w with ⟨⟨data, _ | e⟩, w1⟩
      · rw [doBettingRequest_transport_ok _ _ _ _ _ _ _ _ _ _ hb ht]
        rfl
      · rw [doBettingRequest_transport_error _ _ _ _ _ _ _ _ _ _ _ hb ht]
        rfl

/-- C8 at a concrete input: a filter with a text query and two event type ids, and a cap
of 25. -/
theorem listMarketCatalogue_params_fixed_witness :
    (ListMarketCatalogue.params (some soccerFilter) 25).MarketProjection =
        ["RUNNER_METADATA", "EVENT", "MARKET_START_TIME", "MARKET_DESCRIPTION"] ∧
      (ListMarketCatalogue.params (some soccerFilter) 25).MarketFilter = some soccerFilter ∧
      (ListMarketCatalogue.params (some soccerFilter) 25).MaxResults = 25 ∧
      ListMarketCatalogue.params (some soccerFilter) 25 =
        ListMarketCatalogue.params (some soccerFilter) 25 :=
  have h := listMarketCatalogue_params_fixed (some soccerFilter) 25
  ⟨h.1, h.2.1, h.2.2.1, h.2.2.2.2.1 (some soccerFilter) 25 rfl rfl⟩

/-- C9: for the `Params` built by any of the five filter-only operations, a body that was
serialized parses to an object that has a `filter` member exactly when the filter is not
nil; that member is an object holding each of the nine keys exactly when the matching
filter field is set, and no other key; a filter with every field unset is written as
`"filter":{}`. -/
theorem filter_keys_follow_fields (s : Session) (filter : Option MarketFilter) (params : Params)
    (body : String)
    (hop : params ∈ [ListCompetitions.params filter, ListCountries.params filter,
      ListEvents.params filter, ListEventTypes.params filter, ListMarketTypes.params filter])
    (h : requestBody s params = .ok body) :
    ∃ ast, parse body = some ast ∧ body = render ast ∧
      ("filter" ∈ ast.keys ↔ filter ≠ none) ∧
      (∀ f, filter = some f → ∃ fobj, ast.get? "filter" = some fobj ∧
        ("textQuery" ∈ fobj.keys ↔ f.TextQuery ≠ "") ∧
        ("exchangeIds" ∈ fobj.keys ↔ f.ExchangeIds ≠ []) ∧
        ("eventIds" ∈ fobj.keys ↔ f.EventIds ≠ []) ∧
        ("eventTypeIds" ∈ fobj.keys ↔ f.EventTypeIds ≠ []) ∧
        ("marketCountries" ∈ fobj.keys ↔ f.MarketCountries ≠ []) ∧
        ("marketIds" ∈ fobj.keys ↔ f.MarketIds ≠ []) ∧
        ("competitionIds" ∈ fobj.keys ↔ f.CompetitionIds ≠ []) ∧
        ("marketTypeCodes" ∈ fobj.keys ↔ f.MarketTypeCodes ≠ []) ∧
        ("marketStartTime" ∈ fobj.keys ↔ f.MarketStartTime ≠ none) ∧
        (∀ k ∈ fobj.keys, k ∈ ["textQuery", "exchangeIds", "eventIds", "eventTypeIds",
          "marketCountries", "marketIds", "competitionIds", "marketTypeCodes",
          "marketStartTime"])) ∧
      (filter = some {} →
        ast.get? "filter" = some (.obj []) ∧ occursIn "\"filter\":\x7b\x7d" body) := by
  have hparams : params = { MarketFilter := filter } := by
    simp only [List.mem_cons, List.mem_singleton, List.not_mem_nil, or_false] at hop
    rcases hop with h1 | h1 | h1 | h1 | h1 <;> rw [h1] <;> rfl
  subst hparams
  obtain ⟨ast, hast, hbody, hparse⟩ := requestBody_ok s _ body h
  obtain ⟨fm, pm, hf, hp, hj⟩ := params_toJson_ok _ _ hast
  have hpm : pm = [] := by
    simp only [pointerField, Except.ok.injEq] at hp
    exact hp.symm
  subst hpm
  simp only [stringsField, intField, if_true, List.append_nil, stringField] at hj
  refine ⟨ast, hparse, hbody, ?_, ?_, ?_⟩
  · rw [hj]
    simp only [Json.keys, List.map_append, List.mem_append, mem_keys_pointerField _ _ _ _ _ hf,
      mem_keys_stringField]
    simp
  · intro f hfilter
    subst hfilter
    rcases pointerField_shape _ _ _ _ hf with ⟨h1, _⟩ | ⟨a, j, h1, henc, hfm⟩
    · simp at h1
    · have ha : a = f := by
        simp only [Option.some.injEq] at h1
        exact h1.symm
      subst ha
      obtain ⟨mst, hmst, hjf⟩ := marketFilter_toJson_ok a j henc
      refine ⟨j, ?_, ?_⟩
      · rw [hj, hfm]
        simp [Json.get?]
      · rw [hjf]
        simp only [Json.keys, List.map_append, List.mem_append, mem_keys_stringField,
          mem_keys_stringsField, mem_keys_pointerField _ _ _ _ _ hmst]
        refine ⟨by simp, by simp, by simp, by simp, by simp, by simp, by simp, by simp, by simp,
          ?_⟩
        intro k hk
        simp only [List.mem_cons, List.mem_singleton, List.not_mem_nil, or_false]
        tauto
  · intro hfilter
    subst hfilter
    have hfm : fm = [("filter", .obj [])] := by
      have : pointerField "filter" MarketFilter.toJson (some ({} : MarketFilter)) =
          .ok [("filter", .obj [])] := rfl
      have hf1 : pointerField "filter" MarketFilter.toJson (some ({} : MarketFilter)) =
          .ok fm := hf
      rw [this] at hf1
      simp only [Except.ok.injEq] at hf1
      exact hf1.symm
    subst hfm
    refine ⟨by rw [hj]; simp [Json.get?], ?_⟩
    rw [hbody, hj]
    have hq : ("\"filter\":\x7b\x7d" : String) = quote "filter" ++ ":" ++ render (.obj []) := by
      decide
    rw [hq]
    apply render_obj_occurs
    simp

/-- C9 at a concrete input: `ListEventTypes` with a filter that sets a text query and two
event type ids, under locale `"en"`. -/
theorem filter_keys_follow_fields_witness :
    requestBody english (ListEventTypes.params (some soccerFilter)) =
        .ok "\x7b\"filter\":\x7b\"textQuery\":\"cup\",\"eventTypeIds\":[\"1\",\"2\"]\x7d,\"locale\":\"en\"\x7d" ∧
      ∃ ast,
        parse "\x7b\"filter\":\x7b\"textQuery\":\"cup\",\"eventTypeIds\":[\"1\",\"2\"]\x7d,\"locale\":\"en\"\x7d" =
            some ast ∧
          ("filter" ∈ ast.keys ↔ some soccerFilter ≠ none) :=
  have h := filter_keys_follow_fields english (some soccerFilter)
    (ListEventTypes.params (some soccerFilter))
    "\x7b\"filter\":\x7b\"textQuery\":\"cup\",\"eventTypeIds\":[\"1\",\"2\"]\x7d,\"locale\":\"en\"\x7d"
    (by simp) rfl
  ⟨rfl, h.elim fun ast ha => ⟨ast, ha.1, ha.2.2.1⟩⟩

/-- C10: the body `ListEvents` serializes under locale `"en"` for a filter whose
market-start-time range has only `From` set, only `To` set, or neither bound set: the
`marketStartTime` object holds both a `from` and a `to` member every time, the unset bound
being written as the zero instant `0001-01-01T00:00:00Z`. -/
theorem timeRange_unset_bound_is_written :
    requestBody english (ListEvents.params (some { MarketStartTime := some { From := kickOff } })) =
        .ok "\x7b\"filter\":\x7b\"marketStartTime\":\x7b\"from\":\"2014-03-09T13:00:00Z\",\"to\":\"0001-01-01T00:00:00Z\"\x7d\x7d,\"locale\":\"en\"\x7d" ∧
      requestBody english (ListEvents.params (some { MarketStartTime := some { To := kickOff } })) =
        .ok "\x7b\"filter\":\x7b\"marketStartTime\":\x7b\"from\":\"0001-01-01T00:00:00Z\",\"to\":\"2014-03-09T13:00:00Z\"\x7d\x7d,\"locale\":\"en\"\x7d" ∧
      requestBody english (ListEvents.params (some { MarketStartTime := some {} })) =
        .ok "\x7b\"filter\":\x7b\"marketStartTime\":\x7b\"from\":\"0001-01-01T00:00:00Z\",\"to\":\"0001-01-01T00:00:00Z\"\x7d\x7d,\"locale\":\"en\"\x7d" ∧
      TimeRange.toJson { From := kickOff } =
        .ok (.obj [("from", .str "2014-03-09T13:00:00Z"), ("to", .str "0001-01-01T00:00:00Z")]) :=
  ⟨rfl, rfl, rfl, rfl⟩

end betfair
